import Mathlib

/-!
Shallow embedding of the wpp_bots dispatch core (Telegram webhook controller,
route claim executor, Redis-backed queue engine) and proofs of the spec's
claims about it.

Sources embedded:
- `src/backend/src/data/route.service.ts` (`assignRoute`)
- `src/unnamed/part_001`, lines 1-1076 (the multi-group `TelegramController`:
  queue engine, active-slot controller, timers, event log, webhook handler)
- `src/unnamed/part_005` (`sortRoutes`, `normalizeVehicleType`)

Modelling conventions:
- JavaScript numbers reaching `parsePriorityScore` are modelled by `JSNum`:
  a finite double is a rational, and every non-finite coercion result
  (`NaN`, `Infinity`, `-Infinity`) is `JSNum.nonfinite`, which is all
  `Number.isFinite` distinguishes.
- Redis is the `KV` record; each controller method is a state transformer
  `... → KV → α × KV` sequentialising its awaited Redis calls in program
  order. TTL expiry is not modelled (no claim spans a TTL window); `expire`
  calls are therefore no-ops on the stored values.
- Outbound chat sends are external I/O and do not touch `KV`; the
  `/logdiario` chunking of outbound messages is modelled separately over
  `List Char` because only the message lengths matter to the claim.
- Wall-clock reads (`Date.now()`), the random timer token and the formatted
  time string are threaded through an `Env` record, fixed per top-level call.
-/

/-! ### Character-level string helpers

JavaScript `String.prototype.includes` / `toLowerCase` are modelled over
`List Char` so that everything reduces in the kernel. -/

/-- Prefix test on character lists (structural, kernel-reducible). -/
def isPrefixC : List Char → List Char → Bool
  | [], _ => true
  | _ :: _, [] => false
  | p :: ps, s :: ss => p == s && isPrefixC ps ss

/-- Substring test on character lists: `containsC pat s` is JavaScript
`s.includes(pat)`. -/
def containsC (pat : List Char) : List Char → Bool
  | [] => isPrefixC pat []
  | s :: ss => isPrefixC pat (s :: ss) || containsC pat ss

/-- Lower-case a string into a character list (JS `toLowerCase` on the
code points the repository actually uses). -/
def lowerC (s : String) : List Char := s.toList.map Char.toLower

/-- JavaScript string truthiness of an optional string: `undefined` and the
empty string are falsy. -/
def strTruthy : Option String → Bool
  | none => false
  | some s => !s.toList.isEmpty

/-! ### JavaScript numbers -/

/-- Result of coercing a JavaScript value with `Number(...)`: either a finite
double (an exact rational) or a non-finite result (`NaN`, `±Infinity`),
which is the only distinction `Number.isFinite` makes. -/
inductive JSNum where
  | fin (q : ℚ)
  | nonfinite
deriving DecidableEq, Repr

/-- Embeds `parsePriorityScore` (src/unnamed/part_001 lines 150-156):
non-finite coercions map to 0, negatives clamp to 0, values above 100 clamp
to 100. -/
def parsePriorityScore : JSNum → ℚ
  | .nonfinite => 0
  | .fin score => if score < 0 then 0 else if score > 100 then 100 else score

/-! ### Route claim executor (src/backend/src/data/route.service.ts) -/

/-- Route status enum from the Prisma schema (`RouteStatus`):
`DISPONIVEL` = AVAILABLE, `ATRIBUIDA` = ASSIGNED, `BLOQUEADA` = BLOCKED. -/
inductive RouteStatus where
  | DISPONIVEL
  | ATRIBUIDA
  | BLOQUEADA
deriving DecidableEq, Repr

/-- Row of the `Route` table as `assignRoute` touches it. -/
structure RouteRow where
  id : String
  driverId : Option String
  status : RouteStatus
  assignedAt : Option Nat
deriving DecidableEq, Repr

/-- Predicate of the `updateMany` WHERE clause of `assignRoute`:
`id = routeId AND status = 'DISPONIVEL' AND driverId IS NULL`. -/
def assignRouteWhere (routeId : String) (r : RouteRow) : Bool :=
  r.id == routeId && r.status == .DISPONIVEL && r.driverId == none

/-- Embeds `assignRoute` (route.service.ts lines 46-61): conditional
`updateMany` setting `driverId`, `status := ATRIBUIDA`, `assignedAt := now`
on every row matching the WHERE clause, returning whether the affected row
count is positive, paired with the updated table. -/
def assignRoute (table : List RouteRow) (routeId driverId : String) (now : Nat) :
    Bool × List RouteRow :=
  let updated := table.map fun r =>
    if assignRouteWhere routeId r then
      { r with driverId := some driverId, status := .ATRIBUIDA, assignedAt := some now }
    else r
  (decide (0 < table.countP (assignRouteWhere routeId)), updated)

lemma assignRoute_fst_true_iff (table : List RouteRow) (routeId driverId : String) (now : Nat) :
    (assignRoute table routeId driverId now).1 = true ↔
      ∃ r ∈ table, r.id = routeId ∧ r.status = .DISPONIVEL ∧ r.driverId = none := by
  simp only [assignRoute, decide_eq_true_eq, List.countP_pos_iff, assignRouteWhere,
    Bool.and_eq_true, beq_iff_eq]
  constructor
  · rintro ⟨r, hr, ⟨h1, h2⟩, h3⟩
    exact ⟨r, hr, h1, h2, h3⟩
  · rintro ⟨r, hr, h1, h2, h3⟩
    exact ⟨r, hr, ⟨h1, h2⟩, h3⟩

lemma assignRoute_no_match_eq (table : List RouteRow) (routeId driverId : String) (now : Nat)
    (h : ∀ r ∈ table, assignRouteWhere routeId r = false) :
    assignRoute table routeId driverId now = (false, table) := by
  unfold assignRoute
  refine Prod.ext ?_ ?_
  · simp only [decide_eq_false_iff_not, List.countP_pos_iff, not_exists]
    intro r
    simp only [not_and]
    intro hr
    simp [h r hr]
  · simp only
    rw [show (table.map fun r => if assignRouteWhere routeId r then
        { r with driverId := some driverId, status := .ATRIBUIDA, assignedAt := some now }
      else r) = table.map id from List.map_congr_left fun r hr => by simp [h r hr]]
    exact List.map_id table

lemma pairwise_key_injOn {α β : Type} (key : α → β) {l : List α}
    (h : l.Pairwise fun a b => key a ≠ key b) :
    ∀ a ∈ l, ∀ b ∈ l, key a = key b → a = b := by
  induction l with
  | nil => intro a ha; cases ha
  | cons x xs ih =>
    rcases List.pairwise_cons.mp h with ⟨hx, hxs⟩
    intro a ha b hb hab
    rcases List.mem_cons.mp ha with ha1 | ha1
    · rcases List.mem_cons.mp hb with hb1 | hb1
      · rw [ha1, hb1]
      · subst ha1
        exact absurd hab (hx b hb1)
    · rcases List.mem_cons.mp hb with hb1 | hb1
      · subst hb1
        exact absurd hab.symm (hx a ha1)
      · exact ih hxs a ha1 b hb1 hab

lemma assignRoute_mem_snd {table : List RouteRow} {routeId driverId : String} {now : Nat}
    {row : RouteRow} (h : row ∈ (assignRoute table routeId driverId now).2) :
    ∃ r0 ∈ table,
      row = (if assignRouteWhere routeId r0 then
        { r0 with driverId := some driverId, status := .ATRIBUIDA, assignedAt := some now }
      else r0) := by
  simp only [assignRoute, List.mem_map] at h
  rcases h with ⟨r0, hr0, hrow⟩
  exact ⟨r0, hr0, hrow.symm⟩

/-- C1: `assignRoute(r, d)` returns true iff, at the moment of the update,
route `r` has status `DISPONIVEL` (AVAILABLE) and a null `driverId`; in that
case the single update sets `driverId := d`, `status := ATRIBUIDA` (ASSIGNED)
and a non-null `assignedAt`; and once `r` is assigned, every subsequent
`assignRoute(r, d2)` returns false for every `d2` (including `d2 = d`) and
leaves the table unchanged. The route table has unique ids (`Route_pkey`). -/
theorem assignRoute_claim (table : List RouteRow) (r d d2 : String) (now now2 : Nat)
    (huniq : table.Pairwise fun a b => a.id ≠ b.id) :
    ((assignRoute table r d now).1 = true ↔
      ∃ row ∈ table, row.id = r ∧ row.status = .DISPONIVEL ∧ row.driverId = none) ∧
    ((assignRoute table r d now).1 = true →
      ∀ row ∈ (assignRoute table r d now).2, row.id = r →
        row.driverId = some d ∧ row.status = .ATRIBUIDA ∧ row.assignedAt = some now) ∧
    ((assignRoute table r d now).1 = true →
      assignRoute (assignRoute table r d now).2 r d2 now2 =
        (false, (assignRoute table r d now).2)) := by
  refine ⟨assignRoute_fst_true_iff table r d now, ?_, ?_⟩
  · intro hsucc row hrow hid
    rcases (assignRoute_fst_true_iff table r d now).mp hsucc with ⟨m, hm, hmid, hmst, hmdr⟩
    rcases assignRoute_mem_snd hrow with ⟨r0, hr0, hform⟩
    by_cases hmatch : assignRouteWhere r r0 = true
    · rw [hform, if_pos hmatch]
      exact ⟨rfl, rfl, rfl⟩
    · exfalso
      rw [hform, if_neg hmatch] at hid
      have : r0 = m := pairwise_key_injOn RouteRow.id huniq r0 hr0 m hm (by rw [hid, hmid])
      subst this
      apply hmatch
      simp [assignRouteWhere, hid, hmst, hmdr]
  · intro _
    apply assignRoute_no_match_eq
    intro row hrow
    rcases assignRoute_mem_snd hrow with ⟨r0, hr0, hform⟩
    by_cases hmatch : assignRouteWhere r r0 = true
    · rw [hform, if_pos hmatch]
      simp [assignRouteWhere]
    · rw [hform, if_neg hmatch]
      exact Bool.eq_false_iff.mpr fun hc => hmatch hc

/-- Witness for C1: on a one-row table holding an AVAILABLE route `R001`,
the first claim by driver `123` succeeds, and re-claiming `R001` afterwards
(by driver `456`) returns false and leaves the table unchanged. -/
theorem assignRoute_claim_witness :
    assignRoute (assignRoute [⟨"R001", none, .DISPONIVEL, none⟩] "R001" "123" 5).2 "R001" "456" 6 =
      (false, (assignRoute [⟨"R001", none, .DISPONIVEL, none⟩] "R001" "123" 5).2) :=
  (assignRoute_claim [⟨"R001", none, .DISPONIVEL, none⟩] "R001" "123" "456" 5 6
    (by simp)).2.2 (by decide)

/-! ### Distributed lock retry loop (src/unnamed/part_001 lines 274-297)

The sequential `KV` embedding below always resolves lock acquisition
deterministically, so contention is modelled here by an oracle
`avail : Nat → Bool` saying whether attempt `i`'s `setnx` succeeds. The
loop emits a trace of the externally visible actions. -/

/-- Observable events of one `withQueueLock` invocation. -/
inductive LockEv where
  | tryLock (acquired : Bool)
  | sleepMs (ms : Nat)
  | runFnWithLock
  | runFnWithoutLock
  | delLock
deriving DecidableEq, Repr

/-- Loop of `withQueueLock`: up to `remaining` further attempts starting at
attempt number `attempt`; a successful `setnx` runs `fn` and then deletes
the lock, a failed one sleeps 120 ms and retries; exhaustion runs `fn`
without the lock. In every branch the returned value is `fn`'s result. -/
def withQueueLockLoop (avail : Nat → Bool) (fn : Unit → α) :
    Nat → Nat → List LockEv × α
  | 0, _ => ([.runFnWithoutLock], fn ())
  | remaining + 1, attempt =>
    if avail attempt then
      ([.tryLock true, .runFnWithLock, .delLock], fn ())
    else
      let rest := withQueueLockLoop avail fn remaining (attempt + 1)
      (.tryLock false :: .sleepMs 120 :: rest.1, rest.2)

/-- Embeds `withQueueLock` (part_001 lines 274-297) against the contention
oracle: `maxAttempts = 8`, starting at attempt 0. -/
def withQueueLockOracle (avail : Nat → Bool) (fn : Unit → α) : List LockEv × α :=
  withQueueLockLoop avail fn 8 0

/-- Trace segment produced by `n` consecutive failed attempts: each failed
`setnx` is followed by a 120 ms sleep. -/
def lockFailBlock : Nat → List LockEv
  | 0 => []
  | n + 1 => .tryLock false :: .sleepMs 120 :: lockFailBlock n

/-- Counts lock acquisition attempts in a trace. -/
def countTry (tr : List LockEv) : Nat :=
  tr.countP fun e => match e with | .tryLock _ => true | _ => false

lemma withQueueLockLoop_snd (avail : Nat → Bool) (fn : Unit → α) :
    ∀ remaining attempt, (withQueueLockLoop avail fn remaining attempt).2 = fn () := by
  intro remaining
  induction remaining with
  | zero => intro attempt; rfl
  | succ n ih =>
    intro attempt
    unfold withQueueLockLoop
    by_cases h : avail attempt = true
    · simp [h]
    · simp only [Bool.not_eq_true] at h
      simp [h, ih]

lemma withQueueLockLoop_countTry (avail : Nat → Bool) (fn : Unit → α) :
    ∀ remaining attempt, countTry (withQueueLockLoop avail fn remaining attempt).1 ≤ remaining := by
  intro remaining
  induction remaining with
  | zero => intro attempt; simp [withQueueLockLoop, countTry]
  | succ n ih =>
    intro attempt
    unfold withQueueLockLoop
    by_cases h : avail attempt = true
    · simp [h, countTry]
    · simp only [Bool.not_eq_true] at h
      simp [h, countTry, List.countP_cons]
      have := ih (attempt + 1)
      simp only [countTry] at this
      omega

lemma withQueueLockLoop_all_fail (avail : Nat → Bool) (fn : Unit → α) :
    ∀ remaining attempt, (∀ i, attempt ≤ i → i < attempt + remaining → avail i = false) →
      (withQueueLockLoop avail fn remaining attempt).1 =
        lockFailBlock remaining ++ [.runFnWithoutLock] := by
  intro remaining
  induction remaining with
  | zero => intro attempt _; rfl
  | succ n ih =>
    intro attempt h
    have h0 : avail attempt = false := h attempt le_rfl (by omega)
    unfold withQueueLockLoop
    simp only [h0, Bool.false_eq_true, if_false, lockFailBlock, List.cons_append]
    rw [ih (attempt + 1) fun i h1 h2 => h i (by omega) (by omega)]

lemma withQueueLockLoop_first_success (avail : Nat → Bool) (fn : Unit → α) :
    ∀ k remaining attempt, k < remaining → avail (attempt + k) = true →
      (∀ i, i < k → avail (attempt + i) = false) →
      (withQueueLockLoop avail fn remaining attempt).1 =
        lockFailBlock k ++ [.tryLock true, .runFnWithLock, .delLock] := by
  intro k
  induction k with
  | zero =>
    intro remaining attempt hk hav _
    obtain ⟨m, rfl⟩ : ∃ m, remaining = m + 1 := ⟨remaining - 1, by omega⟩
    unfold withQueueLockLoop
    simp only [Nat.add_zero] at hav
    simp [hav, lockFailBlock]
  | succ j ih =>
    intro remaining attempt hk hav hbefore
    obtain ⟨m, rfl⟩ : ∃ m, remaining = m + 1 := ⟨remaining - 1, by omega⟩
    have h0 : avail attempt = false := by
      have := hbefore 0 (by omega)
      simpa using this
    unfold withQueueLockLoop
    simp only [h0, Bool.false_eq_true, if_false, lockFailBlock, List.cons_append]
    rw [ih m (attempt + 1) (by omega) (by rw [show attempt + 1 + j = attempt + (j + 1) by omega]; exact hav)
      fun i hi => by rw [show attempt + 1 + i = attempt + (i + 1) by omega]; exact hbefore (i + 1) (by omega)]

/-- C7: `withLock(group, fn)` makes at most 8 lock attempts with a 120 ms
sleep after each failure; a successful attempt runs `fn` holding the lock
and then deletes the lock; after 8 failures it runs `fn` anyway without the
lock; and in all cases it returns `fn`'s result. -/
theorem withQueueLock_claim {α : Type} (avail : Nat → Bool) (fn : Unit → α) :
    ((withQueueLockOracle avail fn).2 = fn ()) ∧
    (countTry (withQueueLockOracle avail fn).1 ≤ 8) ∧
    ((∀ i, i < 8 → avail i = false) →
      (withQueueLockOracle avail fn).1 = lockFailBlock 8 ++ [.runFnWithoutLock]) ∧
    (∀ k, k < 8 → avail k = true → (∀ i, i < k → avail i = false) →
      (withQueueLockOracle avail fn).1 =
        lockFailBlock k ++ [.tryLock true, .runFnWithLock, .delLock]) := by
  refine ⟨withQueueLockLoop_snd avail fn 8 0, withQueueLockLoop_countTry avail fn 8 0, ?_, ?_⟩
  · intro h
    exact withQueueLockLoop_all_fail avail fn 8 0 fun i h1 h2 => h i (by omega)
  · intro k hk hav hbefore
    exact withQueueLockLoop_first_success avail fn k 8 0 hk (by simpa using hav)
      fun i hi => by simpa using hbefore i hi

/-- Witness for C7: with a lock that frees up on the third attempt
(`avail i = (i = 2)`), the trace is two failed attempts each followed by a
120 ms sleep, then acquisition, the body, and the lock deletion; the value
is the body's result. -/
theorem withQueueLock_claim_witness :
    (withQueueLockOracle (fun i => decide (i = 2)) (fun _ => (42 : Nat))).1 =
        lockFailBlock 2 ++ [.tryLock true, .runFnWithLock, .delLock] ∧
      (withQueueLockOracle (fun i => decide (i = 2)) (fun _ => (42 : Nat))).2 = 42 :=
  ⟨(withQueueLock_claim (fun i => decide (i = 2)) (fun _ => (42 : Nat))).2.2.2 2 (by decide)
      (by decide) (by decide),
    (withQueueLock_claim (fun i => decide (i = 2)) (fun _ => (42 : Nat))).1⟩

/-! ### Event log ring (src/unnamed/part_001 lines 172-198)

`logEvent` right-pushes one line onto the per-day list and trims it with
`ltrim(key, -500, -1)`, which keeps the last 500 elements. -/

/-- Redis `LTRIM key (-n) (-1)`: keep the last `n` elements of the list
(all of them when it is shorter). -/
def ltrimLast (n : Nat) (l : List String) : List String := l.drop (l.length - n)

/-- State change of one `logEvent` call on the per-day list: `RPUSH` the
line, then `LTRIM -500 -1`. -/
def logEventPush (log : List String) (line : String) : List String :=
  ltrimLast 500 (log ++ [line])

/-- Per-day list after appending `lines` in order through `logEvent`,
starting from the day's empty list. -/
def logAfter (lines : List String) : List String := lines.foldl logEventPush []

lemma logEventPush_ltrim (l : List String) (x : String) :
    logEventPush (ltrimLast 500 l) x = ltrimLast 500 (l ++ [x]) := by
  unfold logEventPush ltrimLast
  by_cases h : l.length ≤ 500
  · rw [Nat.sub_eq_zero_of_le h, List.drop_zero]
  · push_neg at h
    have hlen : (List.drop (l.length - 500) l).length = 500 := by
      rw [List.length_drop]; omega
    have hidx1 : (List.drop (l.length - 500) l ++ [x]).length - 500 = 1 := by
      rw [List.length_append, hlen]
      simp only [List.length_cons, List.length_nil]
    have hidx2 : (l ++ [x]).length - 500 = 1 + (l.length - 500) := by
      simp only [List.length_append, List.length_cons, List.length_nil]
      omega
    rw [hidx1, hidx2, List.drop_append_eq_append_drop, List.drop_append_eq_append_drop,
      List.drop_drop, hlen]
    rw [show (1 : Nat) - 500 = 0 from rfl,
      (by omega : 1 + (l.length - 500) - l.length = 0),
      Nat.add_comm (l.length - 500) 1]

lemma logAfter_from (lines : List String) :
    ∀ l : List String, lines.foldl logEventPush (ltrimLast 500 l) = ltrimLast 500 (l ++ lines) := by
  induction lines with
  | nil => intro l; simp [List.foldl_nil]
  | cons x xs ih =>
    intro l
    rw [List.foldl_cons, logEventPush_ltrim, ih (l ++ [x])]
    simp

/-- C8: after every sequence of `logEvent` appends the per-day list holds at
most 500 entries, and those entries are exactly the 500 most recently
appended lines (all of them when fewer than 500 were appended), in append
order: the list equals the appended sequence with all but the last 500
dropped. -/
theorem logEvent_trim_claim (lines : List String) :
    logAfter lines = lines.drop (lines.length - 500) ∧ (logAfter lines).length ≤ 500 := by
  have h : logAfter lines = ltrimLast 500 lines := by
    have := logAfter_from lines []
    simpa [logAfter, ltrimLast] using this
  refine ⟨h, ?_⟩
  rw [h]
  simp only [ltrimLast, List.length_drop]
  omega

/-! ### The /logdiario chunking loop (src/unnamed/part_001 lines 813-833)

Outbound messages are modelled as `List Char`; only their lengths matter.
`trimC` models `String.prototype.trim` on the whitespace characters the
log lines can contain. -/

/-- Whitespace test backing the `trim()` model. -/
def isWsC (c : Char) : Bool := c == ' ' || c == '\n' || c == '\t' || c == '\r'

/-- JavaScript `chunk.trim()` over a character list. -/
def trimC (l : List Char) : List Char :=
  ((l.dropWhile isWsC).reverse.dropWhile isWsC).reverse

/-- Loop body of the `/logdiario` handler: for each line, if
`chunk.length + line.length + 1 > 3500` the current chunk is sent and the
chunk restarts from the line; otherwise the line is appended; at the end
the trimmed chunk is sent when non-empty. Returns the sent messages in
order. -/
def chunkGo : List (List Char) → List Char → List (List Char)
  | [], chunk => if (trimC chunk).length ≠ 0 then [trimC chunk] else []
  | line :: rest, chunk =>
    if chunk.length + line.length + 1 > 3500 then
      chunk :: chunkGo rest (line ++ ['\n'])
    else
      chunkGo rest (chunk ++ line ++ ['\n'])

/-- Messages sent while handling `/logdiario` for a given day-log content:
the "no logs" notice on an empty list, else the chunking loop started with
an empty chunk. -/
def logdiarioMessages (logs : List (List Char)) : List (List Char) :=
  if logs.isEmpty then ["Sem logs para hoje.".toList] else chunkGo logs []

lemma trimC_length_le (l : List Char) : (trimC l).length ≤ l.length := by
  unfold trimC
  calc ((l.dropWhile isWsC).reverse.dropWhile isWsC).reverse.length
      = ((l.dropWhile isWsC).reverse.dropWhile isWsC).length := List.length_reverse _
    _ ≤ (l.dropWhile isWsC).reverse.length := (List.dropWhile_sublist _).length_le
    _ = (l.dropWhile isWsC).length := List.length_reverse _
    _ ≤ l.length := (List.dropWhile_sublist _).length_le

lemma chunkGo_bounded (logs : List (List Char)) :
    ∀ chunk : List Char, (∀ l ∈ logs, l.length ≤ 3499) → chunk.length ≤ 3500 →
      ∀ m ∈ chunkGo logs chunk, m.length ≤ 3500 := by
  induction logs with
  | nil =>
    intro chunk _ hchunk m hm
    unfold chunkGo at hm
    by_cases h : (trimC chunk).length ≠ 0
    · rw [if_pos h] at hm
      rcases List.mem_singleton.mp hm with rfl
      exact le_trans (trimC_length_le chunk) hchunk
    · rw [if_neg h] at hm
      cases hm
  | cons line rest ih =>
    intro chunk hlines hchunk m hm
    have hline : line.length ≤ 3499 := hlines line (List.mem_cons_self line rest)
    have hrest : ∀ l ∈ rest, l.length ≤ 3499 := fun l hl => hlines l (List.mem_cons_of_mem _ hl)
    unfold chunkGo at hm
    by_cases h : chunk.length + line.length + 1 > 3500
    · rw [if_pos h] at hm
      rcases List.mem_cons.mp hm with rfl | hm2
      · exact hchunk
      · exact ih (line ++ ['\n']) hrest (by simp; omega) m hm2
    · rw [if_neg h] at hm
      push_neg at h
      exact ih (chunk ++ line ++ ['\n']) hrest (by simp; omega) m hm

/-- C9 (amended): when every line of the per-day log list has length at most
3499 (so a line plus its newline fits in a chunk), every outbound message
sent while handling `/logdiario` has length at most 3500. -/
theorem logdiario_chunk_claim (logs : List (List Char)) (h : ∀ l ∈ logs, l.length ≤ 3499) :
    ∀ m ∈ logdiarioMessages logs, m.length ≤ 3500 := by
  unfold logdiarioMessages
  by_cases he : logs.isEmpty
  · rw [if_pos he]
    intro m hm
    rcases List.mem_singleton.mp hm with rfl
    decide
  · rw [if_neg he]
    exact chunkGo_bounded logs [] h (by simp)

lemma trimC_replicate_newline (n : Nat) :
    trimC (List.replicate (n + 1) 'a' ++ ['\n']) = List.replicate (n + 1) 'a' := by
  unfold trimC
  have ha : isWsC 'a' = false := by decide
  have h1 : List.dropWhile isWsC (List.replicate (n + 1) 'a' ++ ['\n']) =
      List.replicate (n + 1) 'a' ++ ['\n'] := by
    rw [List.replicate_succ, List.cons_append, List.dropWhile_cons_of_neg (by simp [ha])]
  rw [h1, List.reverse_append, List.reverse_replicate]
  have h2 : List.dropWhile isWsC ([('\n' : Char)].reverse ++ List.replicate (n + 1) 'a') =
      List.replicate (n + 1) 'a' := by
    simp only [List.reverse_singleton, List.singleton_append]
    rw [List.dropWhile_cons_of_pos (by decide)]
    rw [List.replicate_succ, List.dropWhile_cons_of_neg (by simp [ha]), ← List.replicate_succ]
  rw [h2, List.reverse_replicate]

/-- Counterexample for C9: with a day log consisting of one 3501-character
line, the `/logdiario` handler sends a message of length 3501 > 3500 (the
sent message lengths are 0 and 3501). -/
theorem logdiario_chunk_counterexample :
    ((logdiarioMessages [List.replicate 3501 'a']).map List.length = [0, 3501]) ∧
      ¬ (3501 ≤ 3500) := by
  constructor
  · have h1 : logdiarioMessages [List.replicate 3501 'a'] =
        chunkGo [List.replicate 3501 'a'] [] := by
      unfold logdiarioMessages
      rw [if_neg (by decide)]
    rw [h1]
    unfold chunkGo
    rw [if_pos (by simp only [List.length_nil, List.length_replicate]; omega)]
    have htrim : trimC (List.replicate 3501 'a' ++ ['\n']) = List.replicate 3501 'a' :=
      trimC_replicate_newline 3500
    unfold chunkGo
    rw [htrim, if_pos (by simp only [List.length_replicate]; omega)]
    simp only [List.map_cons, List.map_nil, List.length_nil, List.length_replicate]
  · omega

/-! ### Data model of the controller (src/unnamed/part_001 lines 1-1076) -/

/-- Queue group,`'moto' | 'general'`. -/
inductive QGroup where
  | moto
  | general
deriving DecidableEq, Repr

/-- Session states (`DriverState` enum of telegram.state). -/
inductive DriverState where
  | START
  | WAITING_ID
  | MENU
  | HELP_MENU
  | CHOOSING_ROUTE
deriving DecidableEq, Repr

/-- Route reference cached inside a session (`AvailableRoute`). -/
structure AvailableRoute where
  atId : String
  gaiola : Option String := none
  bairro : Option String := none
  cidade : Option String := none
  vehicleType : Option String := none
deriving DecidableEq, Repr

/-- Driver session record (`DriverSession`), with the fields the multi-group
controller reads and writes. `inQueue` is only ever tested for truthiness,
so it is a `Bool` with `undefined = false`. -/
structure DriverSession where
  state : DriverState
  driverId : Option String := none
  driverName : Option String := none
  vehicleType : Option String := none
  ds : Option String := none
  priorityScore : Option JSNum := none
  queueGroup : Option QGroup := none
  availableRoutes : Option (List AvailableRoute) := none
  inQueue : Bool := false
deriving DecidableEq, Repr

/-- Slot metadata `{chatId, startedAt}` stored at `queue:active:meta:<g>`. -/
structure ActiveMeta where
  chatId : String
  startedAt : Nat
deriving DecidableEq, Repr

/-- Driver row as `DriverService.findById` returns it (Prisma `Driver`;
`priorityScore` is a non-null double). -/
structure Driver where
  id : String
  name : Option String := none
  vehicleType : Option String := none
  ds : Option String := none
  priorityScore : JSNum := .fin 0

/-- Redis key space of the controller. Locks are booleans (key present or
absent); lists, sessions, tokens and caches are keyed maps. TTLs are not
modelled (no claim spans a TTL window). -/
structure KV where
  sessions : String → Option DriverSession
  queueList : QGroup → List String
  active : QGroup → Option String
  activeMeta : QGroup → Option ActiveMeta
  emptySince : QGroup → Option Nat
  queueLock : QGroup → Bool
  reclaimLock : QGroup → Bool
  queueMember : String → Bool
  routeTimeout : String → Option String
  blocklistCache : String → Option Bool
  log : List String

/-- External world fixed during one top-level call: the driver repository,
the blocklist table, the route repository query behind `sendRoutes`, the
wall clock, the random timer token and the formatted log time. -/
structure Env where
  drivers : String → Option Driver
  blocklistDb : String → Bool
  availRoutes : String → List AvailableRoute
  now : Nat
  newToken : String
  timeStr : String

/-- Point update of a group-indexed map. -/
def updG {α : Type} (f : QGroup → α) (g : QGroup) (v : α) : QGroup → α :=
  fun x => if x = g then v else f x

/-- Point update of a string-keyed map. -/
def updStr {α : Type} (f : String → α) (k : String) (v : α) : String → α :=
  fun x => if x = k then v else f x

def KV.setSession (kv : KV) (c : String) (s : DriverSession) : KV :=
  { kv with sessions := updStr kv.sessions c (some s) }

def KV.delSession (kv : KV) (c : String) : KV :=
  { kv with sessions := updStr kv.sessions c none }

def KV.setQueueList (kv : KV) (g : QGroup) (l : List String) : KV :=
  { kv with queueList := updG kv.queueList g l }

def KV.lremOne (kv : KV) (g : QGroup) (c : String) : KV :=
  { kv with queueList := updG kv.queueList g ((kv.queueList g).erase c) }

def KV.setActive (kv : KV) (g : QGroup) (v : Option String) : KV :=
  { kv with active := updG kv.active g v }

def KV.setActiveMeta (kv : KV) (g : QGroup) (v : Option ActiveMeta) : KV :=
  { kv with activeMeta := updG kv.activeMeta g v }

def KV.setEmptySince (kv : KV) (g : QGroup) (t : Nat) : KV :=
  { kv with emptySince := updG kv.emptySince g (some t) }

def KV.delEmptySince (kv : KV) (g : QGroup) : KV :=
  { kv with emptySince := updG kv.emptySince g none }

def KV.setQueueLock (kv : KV) (g : QGroup) (b : Bool) : KV :=
  { kv with queueLock := updG kv.queueLock g b }

def KV.setReclaimLock (kv : KV) (g : QGroup) (b : Bool) : KV :=
  { kv with reclaimLock := updG kv.reclaimLock g b }

def KV.setMember (kv : KV) (c : String) : KV :=
  { kv with queueMember := updStr kv.queueMember c true }

def KV.delMember (kv : KV) (c : String) : KV :=
  { kv with queueMember := updStr kv.queueMember c false }

def KV.setToken (kv : KV) (c : String) (tok : String) : KV :=
  { kv with routeTimeout := updStr kv.routeTimeout c (some tok) }

def KV.delToken (kv : KV) (c : String) : KV :=
  { kv with routeTimeout := updStr kv.routeTimeout c none }

/-- Embeds `isFiorino` (part_001 lines 74-77). -/
def isFiorino (vehicleType : Option String) : Bool :=
  containsC "fiorino".toList (lowerC (vehicleType.getD ""))

/-- Embeds `normalizeVehicleType` (src/unnamed/part_005): trim, lower-case,
classify by substring, else upper-case the raw value. -/
def normalizeVehicleType (value : Option String) : Option String :=
  match value with
  | none => none
  | some v =>
    if v.toList.isEmpty then none
    else
      let raw := (trimC v.toList).map Char.toLower
      if raw.isEmpty then none
      else if containsC "moto".toList raw then some "MOTO"
      else if containsC "fiorino".toList raw then some "FIORINO"
      else if containsC "passeio".toList raw then some "PASSEIO"
      else some (String.mk (raw.map Char.toUpper))

/-- Embeds `isMoto` (part_001 lines 79-81). -/
def isMoto (vehicleType : Option String) : Bool :=
  normalizeVehicleType vehicleType == some "MOTO"

/-- Embeds `queueGroupFromVehicle` (part_001 lines 83-85). -/
def queueGroupFromVehicle (vehicleType : Option String) : QGroup :=
  if isMoto vehicleType then .moto else .general

/-- City filter of `sortRoutes` (part_005): the city, lower-cased, is one of
the two interior cities. -/
def isInteriorCity (r : AvailableRoute) : Bool :=
  match r.cidade with
  | none => false
  | some c => lowerC c == "vianópolis".toList || lowerC c == "abadiânia".toList

/-- Embeds `sortRoutes` (src/unnamed/part_005): a stable sort whose
comparator only separates interior cities from the rest, hence the stable
partition with interior cities first. -/
def sortRoutes (rotas : List AvailableRoute) : List AvailableRoute :=
  rotas.filter isInteriorCity ++ rotas.filter fun r => !isInteriorCity r

/-- Embeds `resolveChatPriorityScore` (part_001 lines 158-170): a cached
numeric `priorityScore` on the session wins; a session without a `driverId`
scores 0; otherwise the driver registry is consulted and parsed (a missing
driver coerces to `NaN`, hence 0). -/
def resolveChatPriorityScore (env : Env) (kv : KV) (chatId : String)
    (state : Option DriverSession) : ℚ :=
  let current := match state with
    | some s => some s
    | none => kv.sessions chatId
  match current with
  | none => 0
  | some s =>
    match s.priorityScore with
    | some n => parsePriorityScore n
    | none =>
      match s.driverId with
      | none => 0
      | some d =>
        match env.drivers d with
        | none => parsePriorityScore .nonfinite
        | some dr => parsePriorityScore dr.priorityScore

/-- Embeds `isChatBlocklisted` (part_001 lines 133-148): a session without a
`driverId` is never blocklisted; otherwise the cache is consulted and, on a
miss, the blocklist table is read and its answer cached. -/
def isChatBlocklisted (env : Env) (chatId : String) (kv : KV) : Bool × KV :=
  match kv.sessions chatId with
  | none => (false, kv)
  | some s =>
    match s.driverId with
    | none => (false, kv)
    | some driverId =>
      match kv.blocklistCache driverId with
      | some cached => (cached, kv)
      | none =>
        let isActive := env.blocklistDb driverId
        (isActive, { kv with blocklistCache := updStr kv.blocklistCache driverId (some isActive) })

/-- Formats one `logEvent` line: `[HH:MM:SS] acao=X` followed by the truthy
session fields and the defined detail pairs. -/
def logLine (env : Env) (action : String) (state : Option DriverSession)
    (details : List (String × Option String)) : String :=
  let sessParts := match state with
    | none => []
    | some s =>
      (if strTruthy s.driverId then ["driverId=" ++ s.driverId.getD ""] else []) ++
      (if strTruthy s.driverName then ["nome=" ++ s.driverName.getD ""] else []) ++
      (if strTruthy s.vehicleType then ["veiculo=" ++ s.vehicleType.getD ""] else [])
  let detailParts := details.filterMap fun kvp =>
    match kvp.2 with
    | none => none
    | some v => some (kvp.1 ++ "=" ++ v)
  String.intercalate " " (["[" ++ env.timeStr ++ "]", "acao=" ++ action] ++ sessParts ++ detailParts)

/-- Embeds `logEvent` (part_001 lines 172-198) as a `KV` transformer:
`RPUSH` the formatted line onto the per-day list, then `LTRIM -500 -1`. -/
def logEvent (env : Env) (action : String) (state : Option DriverSession)
    (details : List (String × Option String)) (kv : KV) : KV :=
  { kv with log := logEventPush kv.log (logLine env action state details) }

/-! ### Queue ranking

Both ranking comparators of the controller (`pickNextFromQueue` and
`enqueue`) order by: Fiorino first, then higher `priorityScore`, then lower
original index. Since the indices in one sort call are pairwise distinct,
the comparator is a strict total order and the (stable) JavaScript sort
result is the unique sorted permutation, modelled with `insertionSort`
over the lexicographic key below. -/

/-- Entry ranked by `pickNextFromQueue` (part_001 lines 215-226). -/
structure QMeta where
  chatId : String
  index : Nat
  score : ℚ
  isFiorino : Bool
  blocklisted : Bool
deriving DecidableEq, Repr

/-- Lexicographic sort key of the queue comparator: Fiorino first
(`!isFiorino` ascending), then score descending, then index ascending. -/
def rankKey (m : QMeta) : Bool ×ₗ (ℚ ×ₗ Nat) :=
  toLex (!m.isFiorino, toLex (-m.score, m.index))

/-- Comparator of `pickNextFromQueue`'s two sorts (part_001 lines 230-234
and 245-249) as a total order. -/
def rankLE (a b : QMeta) : Prop := rankKey a ≤ rankKey b

instance : DecidableRel rankLE :=
  fun a b => inferInstanceAs (Decidable (rankKey a ≤ rankKey b))

instance : IsTotal QMeta rankLE := ⟨fun a b => le_total (rankKey a) (rankKey b)⟩

instance : IsTrans QMeta rankLE := ⟨fun _ _ _ hab hbc => le_trans hab hbc⟩

instance : IsRefl QMeta rankLE := ⟨fun a => le_refl (rankKey a)⟩

/-- Entry ranked by `enqueue` (part_001 lines 490-509). -/
structure RankedEntry where
  id : String
  index : Nat
  isFiorino : Bool
  score : ℚ
deriving DecidableEq, Repr

/-- Sort key of `enqueue`'s comparator (part_001 lines 511-515), the same
order as `rankKey`. -/
def rankKeyE (m : RankedEntry) : Bool ×ₗ (ℚ ×ₗ Nat) :=
  toLex (!m.isFiorino, toLex (-m.score, m.index))

/-- Comparator of `enqueue`'s sort as a total order. -/
def rankLEe (a b : RankedEntry) : Prop := rankKeyE a ≤ rankKeyE b

instance : DecidableRel rankLEe :=
  fun a b => inferInstanceAs (Decidable (rankKeyE a ≤ rankKeyE b))

instance : IsTotal RankedEntry rankLEe := ⟨fun a b => le_total (rankKeyE a) (rankKeyE b)⟩

instance : IsTrans RankedEntry rankLEe := ⟨fun _ _ _ hab hbc => le_trans hab hbc⟩

instance : IsRefl RankedEntry rankLEe := ⟨fun a => le_refl (rankKeyE a)⟩

/-! ### Priority queue engine -/

/-- Meta resolution loop of `pickNextFromQueue` (part_001 lines 215-226),
threading the blocklist-cache writes of `isChatBlocklisted` in array
order. -/
def buildQueueMeta (env : Env) : List (Nat × String) → KV → List QMeta × KV
  | [], kv => ([], kv)
  | (index, chatId) :: rest, kv =>
    let state := kv.sessions chatId
    let score := resolveChatPriorityScore env kv chatId state
    let fio := isFiorino (state.bind fun s => s.vehicleType)
    let resBl := isChatBlocklisted env chatId kv
    let resRest := buildQueueMeta env rest resBl.2
    (⟨chatId, index, score, fio, resBl.1⟩ :: resRest.1, resRest.2)

/-- Embeds `pickNextFromQueue` (part_001 lines 206-268). -/
def pickNextFromQueue (env : Env) (g : QGroup) (kv : KV) : Option String × KV :=
  let queue := kv.queueList g
  if queue.isEmpty then (none, kv.delEmptySince g)
  else
    let resMeta := buildQueueMeta env queue.enum kv
    let queueMeta := resMeta.1
    let kv1 := resMeta.2
    let regularMeta := (queueMeta.filter fun m => !m.blocklisted).insertionSort rankLE
    match regularMeta.head? with
    | some regularNext =>
      (some regularNext.chatId,
        (((kv1.delEmptySince g).lremOne g regularNext.chatId).delMember regularNext.chatId))
    | none =>
      let blocklistedMeta := (queueMeta.filter fun m => m.blocklisted).insertionSort rankLE
      match kv1.emptySince g with
      | none => (none, kv1.setEmptySince g env.now)
      | some t =>
        if (env.now : Int) - t < 120 * 1000 then (none, kv1)
        else
          match blocklistedMeta.head? with
          | some firstBlocklisted =>
            (some firstBlocklisted.chatId,
              (((kv1.delEmptySince g).lremOne g firstBlocklisted.chatId).delMember
                firstBlocklisted.chatId))
          | none => (none, kv1)

/-- Sequential-semantics embedding of `withQueueLock` (part_001 lines
274-297): with no other thread running, `setnx` succeeds exactly when the
lock key is absent — the first attempt then takes the lock, runs `fn` and
deletes the key; when the key is held elsewhere all 8 attempts fail and
`fn` runs without the lock, leaving the key untouched. The retry/контention
behaviour itself is `withQueueLockOracle` above. -/
def withQueueLock {α : Type} (g : QGroup) (fn : KV → α × KV) (kv : KV) : α × KV :=
  if kv.queueLock g then fn kv
  else
    let res := fn (kv.setQueueLock g true)
    (res.1, res.2.setQueueLock g false)

/-- Embeds `activateNextInQueue` (part_001 lines 299-324). -/
def activateNextInQueue (env : Env) (g : QGroup) (kv : KV) : Option String × KV :=
  withQueueLock g (fun s => 
    let res := pickNextFromQueue env g s
    match res.1 with
    | none => (none, res.2)
    | some next =>
      (some next, (res.2.setActive g (some next)).setActiveMeta g (some ⟨next, env.now⟩))) kv

/-- Embeds `clearRouteTimeout` (part_001 lines 326-328). -/
def clearRouteTimeout (chatId : String) (kv : KV) : KV := kv.delToken chatId

/-- Embeds `refreshActiveMeta` (part_001 lines 330-345): rewrite the slot
metadata with `startedAt = now`; the `expire` of the active key does not
change stored values. -/
def refreshActiveMeta (env : Env) (chatId : String) (g : QGroup) (kv : KV) : KV :=
  kv.setActiveMeta g (some ⟨chatId, env.now⟩)

/-- State effect of arming `setRouteTimeout` (part_001 lines 347-378): write
the fresh token under `route:timeout:<chatId>`. The deferred callback is
`routeTimeoutCallback` below. -/
def setRouteTimeout (env : Env) (chatId : String) (g : QGroup) (kv : KV) : KV :=
  kv.setToken chatId env.newToken

/-- Embeds `releaseAndNotifyNext` (part_001 lines 538-557) together with the
`notifyQueueNext` / `sendRoutes` cascade it can trigger (lines 432-445 and
624-721), inlined so the recursion is structural on `fuel` and reduces in
the kernel. `fuel` bounds the cascade depth; each level first removes one
queue element, so any `fuel` above the total queue size is exact; at 0 the
remaining cascade is dropped. The `withQueueLock` wrapper is inlined as the
sequential lock discipline (see `withQueueLock`). The standalone
`notifyQueueNext` and `sendRoutes` below mirror the source shape and
`releaseAndNotifyNext_succ` proves this definition is their fixpoint. -/
def releaseAndNotifyNext (env : Env) : Nat → QGroup → KV → KV
  | 0, _, kv => kv
  | fuel + 1, g, kv =>
    let run := fun (s0 : KV) =>
      let s1 := (s0.setActive g none).setActiveMeta g none
      let res := pickNextFromQueue env g s1
      match res.1 with
      | none => res.2
      | some next =>
        let s3 := res.2.setActive g (some next)
        match s3.sessions next with
        | none => releaseAndNotifyNext env fuel g (s3.delSession next)
        | some state =>
          if strTruthy state.vehicleType then
            if !(strTruthy state.driverId && strTruthy state.vehicleType) then
              releaseAndNotifyNext env fuel
                (state.queueGroup.getD (queueGroupFromVehicle state.vehicleType))
                (s3.delSession next)
            else
              let sorted := sortRoutes (env.availRoutes (state.vehicleType.getD ""))
              if sorted.isEmpty then
                releaseAndNotifyNext env fuel
                  (state.queueGroup.getD (queueGroupFromVehicle state.vehicleType)) s3
              else
                let moto := sortRoutes (sorted.filter fun r =>
                  containsC "moto".toList (lowerC (r.vehicleType.getD "")))
                let nonMoto := sortRoutes (sorted.filter fun r =>
                  !containsC "moto".toList (lowerC (r.vehicleType.getD "")))
                let ordered := nonMoto ++ moto
                let s4 := s3.setSession next { state with
                  state := .CHOOSING_ROUTE, availableRoutes := some ordered, inQueue := false }
                let group := state.queueGroup.getD (queueGroupFromVehicle state.vehicleType)
                setRouteTimeout env next group (refreshActiveMeta env next group s4)
          else releaseAndNotifyNext env fuel g (s3.delSession next)
    if kv.queueLock g then run kv
    else (run (kv.setQueueLock g true)).setQueueLock g false

/-- Embeds `sendRoutes` (part_001 lines 624-721) as a `KV` transformer: an
incomplete session or an empty route list releases the slot onward;
otherwise the session enters `CHOOSING_ROUTE` with the ordered route
snapshot, the slot metadata is refreshed and the response timer armed. The
rendered message text is outbound I/O and not part of `KV`. -/
def sendRoutes (env : Env) (fuel : Nat) (chatId : String) (state : DriverSession) (kv : KV) :
    KV :=
  if !(strTruthy state.driverId && strTruthy state.vehicleType) then
    releaseAndNotifyNext env fuel
      (state.queueGroup.getD (queueGroupFromVehicle state.vehicleType)) (kv.delSession chatId)
  else
    let sorted := sortRoutes (env.availRoutes (state.vehicleType.getD ""))
    if sorted.isEmpty then
      releaseAndNotifyNext env fuel
        (state.queueGroup.getD (queueGroupFromVehicle state.vehicleType)) kv
    else
      let moto := sortRoutes (sorted.filter fun r =>
        containsC "moto".toList (lowerC (r.vehicleType.getD "")))
      let nonMoto := sortRoutes (sorted.filter fun r =>
        !containsC "moto".toList (lowerC (r.vehicleType.getD "")))
      let ordered := nonMoto ++ moto
      let kv1 := kv.setSession chatId { state with
        state := .CHOOSING_ROUTE, availableRoutes := some ordered, inQueue := false }
      let group := state.queueGroup.getD (queueGroupFromVehicle state.vehicleType)
      setRouteTimeout env chatId group (refreshActiveMeta env chatId group kv1)

/-- Embeds `notifyQueueNext` (part_001 lines 432-445): a waiter whose
session lost its vehicle type is dropped and the release cascades;
otherwise the waiter is served its routes menu. -/
def notifyQueueNext (env : Env) (fuel : Nat) (next : String) (g : QGroup) (kv : KV) : KV :=
  match kv.sessions next with
  | none => releaseAndNotifyNext env fuel g (kv.delSession next)
  | some state =>
    if strTruthy state.vehicleType then sendRoutes env fuel next state kv
    else releaseAndNotifyNext env fuel g (kv.delSession next)

/-- Sanity: one step of `releaseAndNotifyNext` is exactly the source shape —
the lock-guarded critical section that clears the slot keys, picks the next
waiter, installs it and runs `notifyQueueNext`. -/
lemma releaseAndNotifyNext_succ (env : Env) (fuel : Nat) (g : QGroup) (kv : KV) :
    releaseAndNotifyNext env (fuel + 1) g kv =
      (let run := fun (s0 : KV) =>
        let s1 := (s0.setActive g none).setActiveMeta g none
        let res := pickNextFromQueue env g s1
        match res.1 with
        | none => res.2
        | some next => notifyQueueNext env fuel next g (res.2.setActive g (some next))
      if kv.queueLock g then run kv
      else (run (kv.setQueueLock g true)).setQueueLock g false) := rfl

/-- Embeds `handleTimeout` (part_001 lines 380-396): release the slot and
notify the next waiter, then clear the session and log; the outbound
"closed for inactivity" message is external I/O. -/
def handleTimeout (env : Env) (fuel : Nat) (chatId : String) (vehicleType : Option String)
    (g : QGroup) (kv : KV) : KV :=
  let kv1 := releaseAndNotifyNext env fuel g kv
  let state := kv1.sessions chatId
  let kv2 := kv1.delSession chatId
  logEvent env "timeout_encerrado" state
    [("motivo", some "falta_resposta"), ("veiculo", vehicleType)] kv2

/-- Embeds `requeueExpiredActive` (part_001 lines 398-430): under the
per-group reclaim lock, a slot whose metadata is at least `QUEUE_TTL = 30` s
old is cleared and its holder timed out. -/
def requeueExpiredActive (env : Env) (fuel : Nat) (g : QGroup) (kv : KV) : Bool × KV :=
  if kv.reclaimLock g then (false, kv)
  else
    let kv1 := kv.setReclaimLock g true
    match kv1.activeMeta g with
    | none => (false, kv1.setReclaimLock g false)
    | some meta =>
      if (env.now : Int) - meta.startedAt < 30 * 1000 then (false, kv1.setReclaimLock g false)
      else
        let kv2 := ((kv1.setActiveMeta g none).setActive g none)
        let kv3 := clearRouteTimeout meta.chatId kv2
        let kv4 := kv3.setReclaimLock g false
        (true, handleTimeout env fuel meta.chatId none g kv4)

/-- Slot activation tail of `tryAcquireQueue` (part_001 lines 467-473). -/
def tryAcquireActivate (env : Env) (fuel : Nat) (chatId : String) (g : QGroup) (kv : KV) :
    Bool × KV :=
  let res := activateNextInQueue env g kv
  match res.1 with
  | none => (false, res.2)
  | some next =>
    if next ≠ chatId then (false, notifyQueueNext env fuel next g res.2)
    else (true, res.2)

/-- Embeds `tryAcquireQueue` (part_001 lines 456-474): with a live active
slot the reclaim sweep runs first; if it does not expire the slot the call
returns whether the caller already holds it, else the next waiter is
activated. -/
def tryAcquireQueue (env : Env) (fuel : Nat) (chatId : String) (g : QGroup) (kv : KV) :
    Bool × KV :=
  match kv.active g with
  | some active =>
    let res := requeueExpiredActive env fuel g kv
    if !res.1 then (active == chatId, res.2)
    else tryAcquireActivate env fuel chatId g res.2
  | none => tryAcquireActivate env fuel chatId g kv

/-- Ranking loop of `enqueue` (part_001 lines 490-501); scores and vehicle
flags are resolved from the session snapshot, with no cache writes. -/
def buildRanked (env : Env) (kv : KV) : List (Nat × String) → List RankedEntry
  | [] => []
  | (index, id) :: rest =>
    let itemState := kv.sessions id
    ⟨id, index, isFiorino (itemState.bind fun s => s.vehicleType),
      resolveChatPriorityScore env kv id itemState⟩ :: buildRanked env kv rest

/-- Ranking-and-sort phase of `enqueue` (part_001 lines 485-516): remove any
existing occurrence of the chat, rank every remaining member (`buildRanked`)
plus the candidate — whose index is `Number.MAX_SAFE_INTEGER` and whose
Fiorino flag comes from the `vehicleType` argument —, sort with the
comparator and project back to chat ids. -/
def enqueueNextQueue (env : Env) (chatId : String) (vehicleType : Option String) (g : QGroup)
    (s0 : KV) : List String :=
  let queue := s0.queueList g
  let isFior := isFiorino vehicleType
  let filtered := queue.filter fun id => id ≠ chatId
  let rankedQueue := buildRanked env s0 filtered.enum
  let currentState := s0.sessions chatId
  let cand : RankedEntry :=
    ⟨chatId, 9007199254740991, isFior, resolveChatPriorityScore env s0 chatId currentState⟩
  let sortedQueue := (rankedQueue ++ [cand]).insertionSort rankLEe
  sortedQueue.map RankedEntry.id

/-- Critical section of `enqueue` (part_001 lines 481-529): rewrite the
list, refresh the membership marker, clear the deferral timestamp when the
candidate is not blocklisted, and return the 1-based position. The leading
`expire` of the marker does not change stored values. -/
def enqueueBody (env : Env) (chatId : String) (vehicleType : Option String) (g : QGroup)
    (s0 : KV) : Nat × KV :=
  let nextQueue := enqueueNextQueue env chatId vehicleType g s0
  let s1 := s0.setQueueList g nextQueue
  let s2 := s1.setMember chatId
  let resBl := isChatBlocklisted env chatId s2
  let s3 := if resBl.1 then resBl.2 else resBl.2.delEmptySince g
  (nextQueue.indexOf chatId + 1, s3)

/-- Embeds `enqueue` (part_001 lines 476-530): the critical section above
under the group lock. -/
def enqueue (env : Env) (chatId : String) (vehicleType : Option String) (g : QGroup)
    (kv : KV) : Nat × KV :=
  withQueueLock g (enqueueBody env chatId vehicleType g) kv

/-- Embeds the deferred callback scheduled by `setRouteTimeout` (part_001
lines 357-377): fire only when the persisted token still matches, the
group's active slot is still this chat, and the session still exists in
`CHOOSING_ROUTE`; otherwise at most delete the token. -/
def routeTimeoutCallback (env : Env) (fuel : Nat) (token chatId : String) (g : QGroup)
    (kv : KV) : KV :=
  if kv.routeTimeout chatId ≠ some token then kv
  else if kv.active g ≠ some chatId then kv.delToken chatId
  else
    match kv.sessions chatId with
    | none => kv.delToken chatId
    | some state =>
      if state.state ≠ .CHOOSING_ROUTE then kv.delToken chatId
      else handleTimeout env fuel chatId state.vehicleType g (kv.delToken chatId)

/-! ### Map-update and cache-threading lemmas -/

lemma updG_apply_self {α : Type} (f : QGroup → α) (g : QGroup) (v : α) : updG f g v g = v := by
  simp [updG]

lemma updG_apply_ne {α : Type} (f : QGroup → α) (g x : QGroup) (v : α) (h : x ≠ g) :
    updG f g v x = f x := by
  simp [updG, h]

lemma updG_updG {α : Type} (f : QGroup → α) (g : QGroup) (a b : α) :
    updG (updG f g a) g b = updG f g b := by
  funext x
  unfold updG
  by_cases h : x = g <;> simp [h]

lemma updG_write_cancel {α : Type} (f : QGroup → α) (g : QGroup) (v v0 : α) (h : f g = v0) :
    updG (updG f g v) g v0 = f := by
  funext x
  unfold updG
  by_cases hx : x = g <;> simp [hx, h.symm]

lemma updG_eq_self {α : Type} (f : QGroup → α) (g : QGroup) (v : α) (h : f g = v) :
    updG f g v = f := by
  funext x
  unfold updG
  by_cases hx : x = g <;> simp [hx, h.symm]

lemma updStr_updStr {α : Type} (f : String → α) (k : String) (a b : α) :
    updStr (updStr f k a) k b = updStr f k b := by
  funext x
  unfold updStr
  by_cases h : x = k <;> simp [h]

lemma updStr_eq_self {α : Type} (f : String → α) (k : String) (v : α) (h : f k = v) :
    updStr f k v = f := by
  funext x
  unfold updStr
  by_cases hx : x = k <;> simp [hx, h.symm]

/-- Blocklist flag of a chat as a pure reading of the state: the cached
value when present, otherwise the blocklist table. `isChatBlocklisted`
returns exactly this and only ever caches the table's own answer. -/
def chatBlocklistedPure (env : Env) (kv : KV) (c : String) : Bool :=
  match (kv.sessions c).bind fun s => s.driverId with
  | none => false
  | some d => (kv.blocklistCache d).getD (env.blocklistDb d)

lemma isChatBlocklisted_fst (env : Env) (c : String) (kv : KV) :
    (isChatBlocklisted env c kv).1 = chatBlocklistedPure env kv c := by
  rcases hs : kv.sessions c with _ | s
  · simp [isChatBlocklisted, chatBlocklistedPure, hs]
  · rcases hd : s.driverId with _ | d
    · simp [isChatBlocklisted, chatBlocklistedPure, hs, hd]
    · rcases hb : kv.blocklistCache d with _ | b <;>
        simp [isChatBlocklisted, chatBlocklistedPure, hs, hd, hb]

lemma isChatBlocklisted_state (env : Env) (c : String) (kv : KV) :
    (isChatBlocklisted env c kv).2 =
      { kv with blocklistCache := (isChatBlocklisted env c kv).2.blocklistCache } := by
  rcases hs : kv.sessions c with _ | s
  · simp [isChatBlocklisted, hs]
  · rcases hd : s.driverId with _ | d
    · simp [isChatBlocklisted, hs, hd]
    · rcases hb : kv.blocklistCache d with _ | b <;>
        simp [isChatBlocklisted, hs, hd, hb]

lemma isChatBlocklisted_cacheD (env : Env) (c : String) (kv : KV) (d : String) :
    ((isChatBlocklisted env c kv).2.blocklistCache d).getD (env.blocklistDb d) =
      (kv.blocklistCache d).getD (env.blocklistDb d) := by
  rcases hs : kv.sessions c with _ | s
  · simp [isChatBlocklisted, hs]
  · rcases hd : s.driverId with _ | d0
    · simp [isChatBlocklisted, hs, hd]
    · rcases hb : kv.blocklistCache d0 with _ | b
      · by_cases hdd : d = d0
        · subst hdd
          simp [isChatBlocklisted, hs, hd, hb, updStr]
        · simp [isChatBlocklisted, hs, hd, hb, updStr, hdd]
      · simp [isChatBlocklisted, hs, hd, hb]

lemma resolveChatPriorityScore_congr (env : Env) {kv1 kv : KV}
    (hs : kv1.sessions = kv.sessions) (c : String) (st : Option DriverSession) :
    resolveChatPriorityScore env kv1 c st = resolveChatPriorityScore env kv c st := by
  unfold resolveChatPriorityScore
  rw [hs]

lemma chatBlocklistedPure_congr (env : Env) {kv1 kv : KV}
    (hs : kv1.sessions = kv.sessions)
    (hc : ∀ d, (kv1.blocklistCache d).getD (env.blocklistDb d) =
      (kv.blocklistCache d).getD (env.blocklistDb d)) (c : String) :
    chatBlocklistedPure env kv1 c = chatBlocklistedPure env kv c := by
  unfold chatBlocklistedPure
  rw [hs]
  rcases hx : (kv.sessions c).bind fun s => s.driverId with _ | d
  · rfl
  · exact hc d

/-- Pure value of the meta-resolution loop of `pickNextFromQueue`, read
against the pre-call state. -/
def queueMetasPure (env : Env) (kv : KV) (l : List (Nat × String)) : List QMeta :=
  l.map fun p =>
    ⟨p.2, p.1, resolveChatPriorityScore env kv p.2 (kv.sessions p.2),
      isFiorino ((kv.sessions p.2).bind fun s => s.vehicleType),
      chatBlocklistedPure env kv p.2⟩

lemma queueMetasPure_congr (env : Env) {kv1 kv : KV}
    (hs : kv1.sessions = kv.sessions)
    (hc : ∀ d, (kv1.blocklistCache d).getD (env.blocklistDb d) =
      (kv.blocklistCache d).getD (env.blocklistDb d)) (l : List (Nat × String)) :
    queueMetasPure env kv1 l = queueMetasPure env kv l := by
  unfold queueMetasPure
  apply List.map_congr_left
  intro p _
  rw [resolveChatPriorityScore_congr env hs, hs, chatBlocklistedPure_congr env hs hc]

/-- State relation "differs at most in the blocklist cache". -/
def CacheOnly (a b : KV) : Prop :=
  a.sessions = b.sessions ∧ a.queueList = b.queueList ∧ a.active = b.active ∧
  a.activeMeta = b.activeMeta ∧ a.emptySince = b.emptySince ∧ a.queueLock = b.queueLock ∧
  a.reclaimLock = b.reclaimLock ∧ a.queueMember = b.queueMember ∧
  a.routeTimeout = b.routeTimeout ∧ a.log = b.log

lemma cacheOnly_refl (a : KV) : CacheOnly a a :=
  ⟨rfl, rfl, rfl, rfl, rfl, rfl, rfl, rfl, rfl, rfl⟩

lemma cacheOnly_trans {a b c : KV} (h1 : CacheOnly a b) (h2 : CacheOnly b c) : CacheOnly a c := by
  obtain ⟨x1, x2, x3, x4, x5, x6, x7, x8, x9, x10⟩ := h1
  obtain ⟨y1, y2, y3, y4, y5, y6, y7, y8, y9, y10⟩ := h2
  exact ⟨x1.trans y1, x2.trans y2, x3.trans y3, x4.trans y4, x5.trans y5, x6.trans y6,
    x7.trans y7, x8.trans y8, x9.trans y9, x10.trans y10⟩

lemma isChatBlocklisted_cacheOnly (env : Env) (c : String) (kv : KV) :
    CacheOnly (isChatBlocklisted env c kv).2 kv := by
  rcases hs : kv.sessions c with _ | s
  · simp [isChatBlocklisted, hs, cacheOnly_refl]
  · rcases hd : s.driverId with _ | d
    · simp [isChatBlocklisted, hs, hd, cacheOnly_refl]
    · rcases hb : kv.blocklistCache d with _ | b
      · simp [isChatBlocklisted, hs, hd, hb, CacheOnly]
      · simp [isChatBlocklisted, hs, hd, hb, cacheOnly_refl]

lemma queueMetasPure_cons (env : Env) (kv : KV) (p : Nat × String) (l : List (Nat × String)) :
    queueMetasPure env kv (p :: l) =
      ⟨p.2, p.1, resolveChatPriorityScore env kv p.2 (kv.sessions p.2),
        isFiorino ((kv.sessions p.2).bind fun s => s.vehicleType),
        chatBlocklistedPure env kv p.2⟩ :: queueMetasPure env kv l := rfl

lemma buildQueueMeta_cons (env : Env) (i : Nat) (c : String) (rest : List (Nat × String))
    (kv : KV) :
    buildQueueMeta env ((i, c) :: rest) kv =
      (⟨c, i, resolveChatPriorityScore env kv c (kv.sessions c),
          isFiorino ((kv.sessions c).bind fun s => s.vehicleType),
          (isChatBlocklisted env c kv).1⟩ ::
        (buildQueueMeta env rest (isChatBlocklisted env c kv).2).1,
      (buildQueueMeta env rest (isChatBlocklisted env c kv).2).2) := rfl

lemma buildQueueMeta_spec (env : Env) (l : List (Nat × String)) :
    ∀ kv : KV,
      (buildQueueMeta env l kv).1 = queueMetasPure env kv l ∧
      CacheOnly (buildQueueMeta env l kv).2 kv ∧
      (∀ d, ((buildQueueMeta env l kv).2.blocklistCache d).getD (env.blocklistDb d) =
        (kv.blocklistCache d).getD (env.blocklistDb d)) := by
  induction l with
  | nil => exact fun kv => ⟨rfl, cacheOnly_refl _, fun d => rfl⟩
  | cons p rest ih =>
    intro kv
    obtain ⟨p1, p2⟩ := p
    have hco := isChatBlocklisted_cacheOnly env p2 kv
    obtain ⟨ih1, ih2, ih3⟩ := ih (isChatBlocklisted env p2 kv).2
    refine ⟨?_, ?_, ?_⟩
    · rw [buildQueueMeta_cons, queueMetasPure_cons]
      simp only
      refine congrArg₂ List.cons ?_ ?_
      · rw [isChatBlocklisted_fst]
      · rw [ih1,
          queueMetasPure_congr env hco.1 (isChatBlocklisted_cacheD env p2 kv) rest]
    · rw [buildQueueMeta_cons]
      exact cacheOnly_trans ih2 hco
    · intro d
      rw [buildQueueMeta_cons]
      exact (ih3 d).trans (isChatBlocklisted_cacheD env p2 kv d)


lemma insertionSort_head_min {α : Type} (r : α → α → Prop) [DecidableRel r] [IsTotal α r]
    [IsTrans α r] [IsRefl α r] {l : List α} (hne : l ≠ []) :
    ∃ h, (l.insertionSort r).head? = some h ∧ h ∈ l ∧ ∀ m ∈ l, r h m := by
  have hperm := List.perm_insertionSort r l
  have hsorted := List.sorted_insertionSort r l
  cases hs : l.insertionSort r with
  | nil =>
    rw [hs] at hperm
    exact absurd hperm.nil_eq.symm hne
  | cons h t =>
    rw [hs] at hperm hsorted
    refine ⟨h, rfl, hperm.mem_iff.mp (List.mem_cons_self h t), ?_⟩
    intro m hm
    rcases List.mem_cons.mp (hperm.mem_iff.mpr hm) with rfl | hmt
    · exact IsRefl.refl m
    · exact (List.sorted_cons.mp hsorted).1 m hmt

/-- Ranked view of the group's waiting list as `pickNextFromQueue` resolves
it, read against the pre-call state. -/
def pickNextMetas (env : Env) (g : QGroup) (kv : KV) : List QMeta :=
  queueMetasPure env kv (kv.queueList g).enum

/-- C2: `pickNext` on an empty queue clears the deferral timestamp and
returns null; with any non-blocklisted member queued it clears the
timestamp and removes and returns the best-ranked non-blocklisted member;
with only blocklisted members it sets the timestamp and returns null when
the timestamp was unset, returns null while less than 120 s have elapsed,
and once 120 s have elapsed clears the timestamp and removes and returns
the best-ranked blocklisted member. -/
theorem pickNextFromQueue_claim (env : Env) (g : QGroup) (kv : KV) :
    (kv.queueList g = [] →
      pickNextFromQueue env g kv = (none, kv.delEmptySince g)) ∧
    ((∃ m ∈ pickNextMetas env g kv, m.blocklisted = false) →
      ∃ best ∈ pickNextMetas env g kv, best.blocklisted = false ∧
        (∀ m ∈ pickNextMetas env g kv, m.blocklisted = false → rankLE best m) ∧
        (pickNextFromQueue env g kv).1 = some best.chatId ∧
        (pickNextFromQueue env g kv).2.queueList g = (kv.queueList g).erase best.chatId ∧
        (pickNextFromQueue env g kv).2.emptySince g = none ∧
        (pickNextFromQueue env g kv).2.queueMember best.chatId = false ∧
        (pickNextFromQueue env g kv).2.sessions = kv.sessions ∧
        (pickNextFromQueue env g kv).2.active = kv.active) ∧
    (kv.queueList g ≠ [] →
      (∀ m ∈ pickNextMetas env g kv, m.blocklisted = true) →
      (kv.emptySince g = none →
        (pickNextFromQueue env g kv).1 = none ∧
        (pickNextFromQueue env g kv).2.emptySince g = some env.now ∧
        (pickNextFromQueue env g kv).2.queueList = kv.queueList ∧
        (pickNextFromQueue env g kv).2.sessions = kv.sessions ∧
        (pickNextFromQueue env g kv).2.active = kv.active) ∧
      (∀ t, kv.emptySince g = some t → (env.now : Int) - t < 120 * 1000 →
        (pickNextFromQueue env g kv).1 = none ∧
        (pickNextFromQueue env g kv).2.emptySince g = some t ∧
        (pickNextFromQueue env g kv).2.queueList = kv.queueList ∧
        (pickNextFromQueue env g kv).2.sessions = kv.sessions ∧
        (pickNextFromQueue env g kv).2.active = kv.active) ∧
      (∀ t, kv.emptySince g = some t → 120 * 1000 ≤ (env.now : Int) - t →
        ∃ best ∈ pickNextMetas env g kv,
          (∀ m ∈ pickNextMetas env g kv, rankLE best m) ∧
          (pickNextFromQueue env g kv).1 = some best.chatId ∧
          (pickNextFromQueue env g kv).2.queueList g = (kv.queueList g).erase best.chatId ∧
          (pickNextFromQueue env g kv).2.emptySince g = none ∧
          (pickNextFromQueue env g kv).2.queueMember best.chatId = false ∧
          (pickNextFromQueue env g kv).2.sessions = kv.sessions ∧
          (pickNextFromQueue env g kv).2.active = kv.active)) := by
  obtain ⟨hq1, hq2, hq3⟩ := buildQueueMeta_spec env (kv.queueList g).enum kv
  refine ⟨?_, ?_, ?_⟩
  · intro hempty
    simp only [pickNextFromQueue, hempty, List.isEmpty_nil, if_true]
  · intro ⟨m0, hm0, hm0b⟩
    have hne : (kv.queueList g) ≠ [] := by
      intro hcon
      rw [pickNextMetas, hcon] at hm0
      simp [queueMetasPure] at hm0
    have hfne : ((pickNextMetas env g kv).filter fun m => !m.blocklisted) ≠ [] := by
      intro hcon
      have := List.filter_eq_nil_iff.mp hcon m0 hm0
      simp [hm0b] at this
    obtain ⟨best, hhead, hmem, hmin⟩ := insertionSort_head_min rankLE hfne
    have hbestmem : best ∈ pickNextMetas env g kv := (List.mem_filter.mp hmem).1
    have hbestbl : best.blocklisted = false := by
      have := (List.mem_filter.mp hmem).2
      simpa using this
    refine ⟨best, hbestmem, hbestbl, ?_, ?_⟩
    · intro m hm hmb
      exact hmin m (List.mem_filter.mpr ⟨hm, by simp [hmb]⟩)
    · have hQ : (pickNextFromQueue env g kv) = (some best.chatId,
        ((((buildQueueMeta env (kv.queueList g).enum kv).2.delEmptySince g).lremOne g
          best.chatId).delMember best.chatId)) := by
        simp only [pickNextFromQueue, List.isEmpty_iff, hne, if_false, hq1]
        rw [show queueMetasPure env kv (kv.queueList g).enum = pickNextMetas env g kv from rfl,
          hhead]
      rw [hQ]
      refine ⟨rfl, ?_, ?_, ?_, ?_, ?_⟩
      · simp [KV.delMember, KV.lremOne, KV.delEmptySince, updG_apply_self, hq2.2.1]
      · simp [KV.delMember, KV.lremOne, KV.delEmptySince, updG_apply_self]
      · simp [KV.delMember, KV.lremOne, KV.delEmptySince, updStr]
      · simp [KV.delMember, KV.lremOne, KV.delEmptySince, hq2.1]
      · simp [KV.delMember, KV.lremOne, KV.delEmptySince, hq2.2.2.1]
  · intro hne hallbl
    have hfilter : ((pickNextMetas env g kv).filter fun m => !m.blocklisted) = [] := by
      rw [List.filter_eq_nil_iff]
      intro m hm
      simp [hallbl m hm]
    have hsortnil : (((pickNextMetas env g kv).filter fun m => !m.blocklisted).insertionSort
        rankLE) = [] := by
      rw [hfilter]
      rfl
    have hQ : pickNextFromQueue env g kv =
        (match (buildQueueMeta env (kv.queueList g).enum kv).2.emptySince g with
          | none => (none, (buildQueueMeta env (kv.queueList g).enum kv).2.setEmptySince g env.now)
          | some t =>
            if (env.now : Int) - t < 120 * 1000 then
              (none, (buildQueueMeta env (kv.queueList g).enum kv).2)
            else
              match (((buildQueueMeta env (kv.queueList g).enum kv).1.filter fun m =>
                  m.blocklisted).insertionSort rankLE).head? with
              | some firstBlocklisted =>
                (some firstBlocklisted.chatId,
                  ((((buildQueueMeta env (kv.queueList g).enum kv).2.delEmptySince g).lremOne g
                    firstBlocklisted.chatId).delMember firstBlocklisted.chatId))
              | none => (none, (buildQueueMeta env (kv.queueList g).enum kv).2)) := by
      simp only [pickNextFromQueue, List.isEmpty_iff, hne, if_false]
      rw [hq1, show queueMetasPure env kv (kv.queueList g).enum = pickNextMetas env g kv from rfl,
        hsortnil]
      simp only [List.head?_nil]
    have hES : (buildQueueMeta env (kv.queueList g).enum kv).2.emptySince = kv.emptySince :=
      hq2.2.2.2.2.1
    refine ⟨?_, ?_, ?_⟩
    · intro hnone
      have hres : pickNextFromQueue env g kv =
          (none, (buildQueueMeta env (kv.queueList g).enum kv).2.setEmptySince g env.now) := by
        rw [hQ, hES, hnone]
      rw [hres]
      exact ⟨rfl, updG_apply_self _ _ _, hq2.2.1, hq2.1, hq2.2.2.1⟩
    · intro t ht helapsed
      have hres : pickNextFromQueue env g kv =
          (none, (buildQueueMeta env (kv.queueList g).enum kv).2) := by
        rw [hQ, hES, ht]
        exact if_pos helapsed
      rw [hres]
      exact ⟨rfl, (congrFun hES g).trans ht, hq2.2.1, hq2.1, hq2.2.2.1⟩
    · intro t ht helapsed
      have hmetane : pickNextMetas env g kv ≠ [] := by
        intro hcon
        apply hne
        have := congrArg List.length hcon
        simp only [pickNextMetas, queueMetasPure, List.length_map, List.enum_length,
          List.length_nil] at this
        exact List.eq_nil_of_length_eq_zero this
      have hblfilter : ((pickNextMetas env g kv).filter fun m => m.blocklisted) =
          pickNextMetas env g kv := by
        rw [List.filter_eq_self]
        exact hallbl
      obtain ⟨best, hhead, hmem, hmin⟩ := insertionSort_head_min rankLE hmetane
      refine ⟨best, hmem, hmin, ?_⟩
      have hstep : pickNextFromQueue env g kv =
          (if (env.now : Int) - t < 120 * 1000 then
            (none, (buildQueueMeta env (kv.queueList g).enum kv).2)
          else
            match (((buildQueueMeta env (kv.queueList g).enum kv).1.filter fun m =>
                m.blocklisted).insertionSort rankLE).head? with
            | some firstBlocklisted =>
              (some firstBlocklisted.chatId,
                ((((buildQueueMeta env (kv.queueList g).enum kv).2.delEmptySince g).lremOne g
                  firstBlocklisted.chatId).delMember firstBlocklisted.chatId))
            | none => (none, (buildQueueMeta env (kv.queueList g).enum kv).2)) := by
        rw [hQ, hES, ht]
      have hres : pickNextFromQueue env g kv =
          (some best.chatId,
            ((((buildQueueMeta env (kv.queueList g).enum kv).2.delEmptySince g).lremOne g
              best.chatId).delMember best.chatId)) := by
        rw [hstep, if_neg (by omega),
          show (buildQueueMeta env (kv.queueList g).enum kv).1 = pickNextMetas env g kv from hq1,
          hblfilter, hhead]
      rw [hres]
      refine ⟨rfl, ?_, ?_, ?_, ?_, ?_⟩
      · simp [KV.delMember, KV.lremOne, KV.delEmptySince, updG_apply_self, hq2.2.1]
      · simp [KV.delMember, KV.lremOne, KV.delEmptySince, updG_apply_self]
      · simp [KV.delMember, KV.lremOne, KV.delEmptySince, updStr]
      · simp [KV.delMember, KV.lremOne, KV.delEmptySince, hq2.1]
      · simp [KV.delMember, KV.lremOne, KV.delEmptySince, hq2.2.2.1]

/-- Empty Redis state: no keys set. -/
def emptyKV : KV where
  sessions := fun _ => none
  queueList := fun _ => []
  active := fun _ => none
  activeMeta := fun _ => none
  emptySince := fun _ => none
  queueLock := fun _ => false
  reclaimLock := fun _ => false
  queueMember := fun _ => false
  routeTimeout := fun _ => none
  blocklistCache := fun _ => none
  log := []

/-- Minimal environment: empty driver registry and blocklist, no routes. -/
def baseEnv : Env where
  drivers := fun _ => none
  blocklistDb := fun _ => false
  availRoutes := fun _ => []
  now := 0
  newToken := "tok"
  timeStr := "00:00:00"

/-- Queue holding only the blocklisted chat `b` (its driver `9` is cached
as blocklist-ACTIVE), with no deferral timestamp set. -/
def kvC2w : KV :=
  { emptyKV with
    queueList := updG emptyKV.queueList .general ["b"],
    sessions := updStr emptyKV.sessions "b" (some { state := .MENU, driverId := some "9" }),
    blocklistCache := updStr emptyKV.blocklistCache "9" (some true) }

/-- Witness for C2: on an empty queue `pickNext` clears the timestamp and
returns null; on a queue holding only the blocklisted chat `b` with no
deferral timestamp set, it sets the timestamp to now, returns null and
leaves list, sessions and slot alone. -/
theorem pickNextFromQueue_claim_witness :
    (pickNextFromQueue baseEnv QGroup.general emptyKV =
      (none, emptyKV.delEmptySince QGroup.general)) ∧
    ((pickNextFromQueue baseEnv QGroup.general kvC2w).1 = none ∧
      (pickNextFromQueue baseEnv QGroup.general kvC2w).2.emptySince QGroup.general =
        some baseEnv.now ∧
      (pickNextFromQueue baseEnv QGroup.general kvC2w).2.queueList = kvC2w.queueList ∧
      (pickNextFromQueue baseEnv QGroup.general kvC2w).2.sessions = kvC2w.sessions ∧
      (pickNextFromQueue baseEnv QGroup.general kvC2w).2.active = kvC2w.active) :=
  ⟨(pickNextFromQueue_claim baseEnv QGroup.general emptyKV).1 rfl,
    ((pickNextFromQueue_claim baseEnv QGroup.general kvC2w).2.2 (by decide) (by decide)).1 rfl⟩

/-- C5: the armed timer callback never terminates the chat's session unless,
at firing time, the persisted token equals the armed token, the group's
active slot is this chat, and the session exists in CHOOSING_ROUTE; in every
other case it leaves sessions, slot keys and queue lists unchanged, at most
deleting the timer token. -/
theorem routeTimeoutCallback_claim (env : Env) (fuel : Nat) (token chatId : String)
    (g : QGroup) (kv : KV)
    (hnofire : ¬ (kv.routeTimeout chatId = some token ∧ kv.active g = some chatId ∧
      ∃ s, kv.sessions chatId = some s ∧ s.state = DriverState.CHOOSING_ROUTE)) :
    (routeTimeoutCallback env fuel token chatId g kv).sessions = kv.sessions ∧
    (routeTimeoutCallback env fuel token chatId g kv).active = kv.active ∧
    (routeTimeoutCallback env fuel token chatId g kv).activeMeta = kv.activeMeta ∧
    (routeTimeoutCallback env fuel token chatId g kv).queueList = kv.queueList ∧
    (routeTimeoutCallback env fuel token chatId g kv = kv ∨
      routeTimeoutCallback env fuel token chatId g kv = kv.delToken chatId) := by
  have hred : routeTimeoutCallback env fuel token chatId g kv = kv ∨
      routeTimeoutCallback env fuel token chatId g kv = kv.delToken chatId := by
    unfold routeTimeoutCallback
    by_cases h1 : kv.routeTimeout chatId = some token
    · rw [if_neg (by simpa using h1)]
      by_cases h2 : kv.active g = some chatId
      · rw [if_neg (by simpa using h2)]
        rcases hs : kv.sessions chatId with _ | s
        · exact Or.inr rfl
        · by_cases h3 : s.state = DriverState.CHOOSING_ROUTE
          · exact absurd ⟨h1, h2, s, hs, h3⟩ hnofire
          · exact Or.inr (if_pos h3)
      · rw [if_pos h2]
        exact Or.inr rfl
    · rw [if_pos h1]
      exact Or.inl rfl
  rcases hred with h | h <;> rw [h]
  · exact ⟨rfl, rfl, rfl, rfl, Or.inl rfl⟩
  · exact ⟨rfl, rfl, rfl, rfl, Or.inr rfl⟩

/-- Witness for C5: on a state with no timer token armed for chat `c`, the
callback leaves the state unchanged or at most deletes the (absent) token. -/
theorem routeTimeoutCallback_claim_witness :
    routeTimeoutCallback baseEnv 1 "t" "c" QGroup.general emptyKV = emptyKV ∨
      routeTimeoutCallback baseEnv 1 "t" "c" QGroup.general emptyKV = emptyKV.delToken "c" :=
  (routeTimeoutCallback_claim baseEnv 1 "t" "c" QGroup.general emptyKV
    (by simp [emptyKV])).2.2.2.2

lemma requeueExpiredActive_noexpire (env : Env) (fuel : Nat) (g : QGroup) (kv : KV)
    (hfresh : kv.reclaimLock g = true ∨
      ∀ meta, kv.activeMeta g = some meta → (env.now : Int) - meta.startedAt < 30 * 1000) :
    requeueExpiredActive env fuel g kv = (false, kv) := by
  unfold requeueExpiredActive
  by_cases hlock : kv.reclaimLock g = true
  · rw [if_pos hlock]
  · rw [if_neg hlock]
    rcases hfresh with hl | hfresh
    · exact absurd hl hlock
    simp only [KV.setReclaimLock]
    rcases hmeta : kv.activeMeta g with _ | meta
    · simp only
      rw [updG_updG, updG_eq_self kv.reclaimLock g false (by simpa using hlock)]
    · simp only
      rw [if_pos (hfresh meta hmeta)]
      rw [updG_updG, updG_eq_self kv.reclaimLock g false (by simpa using hlock)]

/-- C4 (amended): when chat `c` holds the group's active slot and the
reclaim sweep cannot expire it — the slot metadata, when present, is
younger than QUEUE_TTL (30 s), or the reclaim lock is held —, then
`tryAcquire(c, g)` returns true and changes nothing. -/
theorem tryAcquireQueue_claim (env : Env) (fuel : Nat) (chatId : String) (g : QGroup)
    (kv : KV) (hactive : kv.active g = some chatId)
    (hfresh : kv.reclaimLock g = true ∨
      ∀ meta, kv.activeMeta g = some meta → (env.now : Int) - meta.startedAt < 30 * 1000) :
    tryAcquireQueue env fuel chatId g kv = (true, kv) := by
  unfold tryAcquireQueue
  rw [hactive]
  simp [requeueExpiredActive_noexpire env fuel g kv hfresh]

/-- State in which chat `c` holds the general slot with no metadata. -/
def kvC4w : KV := { emptyKV with active := updG emptyKV.active .general (some "c") }

/-- Witness for C4: with `c` holding the general slot and no slot metadata,
`tryAcquire(c, general)` returns true and leaves the state unchanged. -/
theorem tryAcquireQueue_claim_witness :
    tryAcquireQueue baseEnv 1 "c" QGroup.general kvC4w = (true, kvC4w) :=
  tryAcquireQueue_claim baseEnv 1 "c" QGroup.general kvC4w rfl
    (Or.inr fun meta h => by simp [kvC4w, emptyKV, updG] at h)

/-- State in which chat `c` holds the general slot but the slot metadata is
30 s old (taken at instant 0). -/
def kvC4x : KV :=
  { emptyKV with
    active := updG emptyKV.active .general (some "c"),
    activeMeta := updG emptyKV.activeMeta .general (some ⟨"c", 0⟩) }

/-- Environment at wall-clock instant 30000 ms. -/
def envC4 : Env := { baseEnv with now := 30000 }

/-- Counterexample for C4: chat `c` holds the general active slot, yet
`tryAcquire(c, general)` returns false (the reclaim sweep expires the
30 s old slot first) and the slot is gone afterwards. -/
theorem tryAcquireQueue_counterexample :
    kvC4x.active QGroup.general = some "c" ∧
    (tryAcquireQueue envC4 2 "c" QGroup.general kvC4x).1 = false ∧
    (tryAcquireQueue envC4 2 "c" QGroup.general kvC4x).2.active QGroup.general = none :=
  ⟨rfl, rfl, rfl⟩

lemma releaseAndNotifyNext_empty (env : Env) (fuel : Nat) (g : QGroup) (kv : KV)
    (hempty : kv.queueList g = []) :
    releaseAndNotifyNext env (fuel + 1) g kv =
      ((kv.setActive g none).setActiveMeta g none).delEmptySince g := by
  have hpick : ∀ s : KV, s.queueList g = [] →
      pickNextFromQueue env g s = (none, s.delEmptySince g) := by
    intro s hs
    simp only [pickNextFromQueue, hs, List.isEmpty_nil, if_true]
  by_cases hlock : kv.queueLock g = true
  · simp only [releaseAndNotifyNext, hlock, if_true]
    rw [hpick ((kv.setActive g none).setActiveMeta g none) hempty]
  · simp only [releaseAndNotifyNext, hlock, Bool.false_eq_true, if_false]
    rw [hpick (((kv.setQueueLock g true).setActive g none).setActiveMeta g none) hempty]
    simp only [KV.setQueueLock, KV.setActive, KV.setActiveMeta, KV.delEmptySince]
    rw [updG_updG, updG_eq_self kv.queueLock g false (by simpa using hlock)]

lemma handleTimeout_empty (env : Env) (fuel : Nat) (c : String) (vt : Option String)
    (g : QGroup) (kv : KV) (hempty : kv.queueList g = []) :
    handleTimeout env (fuel + 1) c vt g kv =
      logEvent env "timeout_encerrado" (kv.sessions c)
        [("motivo", some "falta_resposta"), ("veiculo", vt)]
        ((((kv.setActive g none).setActiveMeta g none).delEmptySince g).delSession c) := by
  unfold handleTimeout
  rw [releaseAndNotifyNext_empty env fuel g kv hempty]
  rfl

/-- C6 (amended): when the group's waiting list is empty, running
`handleTimeout(c)` twice leaves the same sessions, queue lists and active
slot (key and metadata) as running it once — even across different
wall-clock instants. -/
theorem handleTimeout_claim (env1 env2 : Env) (f1 f2 : Nat) (c : String) (vt : Option String)
    (g : QGroup) (kv : KV) (hempty : kv.queueList g = []) :
    (handleTimeout env2 (f2 + 1) c vt g (handleTimeout env1 (f1 + 1) c vt g kv)).sessions =
      (handleTimeout env1 (f1 + 1) c vt g kv).sessions ∧
    (handleTimeout env2 (f2 + 1) c vt g (handleTimeout env1 (f1 + 1) c vt g kv)).queueList =
      (handleTimeout env1 (f1 + 1) c vt g kv).queueList ∧
    (handleTimeout env2 (f2 + 1) c vt g (handleTimeout env1 (f1 + 1) c vt g kv)).active =
      (handleTimeout env1 (f1 + 1) c vt g kv).active ∧
    (handleTimeout env2 (f2 + 1) c vt g (handleTimeout env1 (f1 + 1) c vt g kv)).activeMeta =
      (handleTimeout env1 (f1 + 1) c vt g kv).activeMeta := by
  have h1 := handleTimeout_empty env1 f1 c vt g kv hempty
  have honceQL : (handleTimeout env1 (f1 + 1) c vt g kv).queueList = kv.queueList := by
    rw [h1]
    rfl
  have h2 := handleTimeout_empty env2 f2 c vt g (handleTimeout env1 (f1 + 1) c vt g kv)
    ((congrFun honceQL g).trans hempty)
  rw [h2, h1]
  exact ⟨updStr_updStr kv.sessions c none none, rfl,
    updG_updG kv.active g none none, updG_updG kv.activeMeta g none none⟩

/-- Witness for C6 (amended): concrete check at a state with an empty
general queue where chat `c` holds the slot and a session. -/
def kvC6w : KV :=
  { emptyKV with
    active := updG emptyKV.active .general (some "c"),
    sessions := updStr emptyKV.sessions "c" (some { state := .CHOOSING_ROUTE }) }

/-- Witness for C6: on `kvC6w` (empty general queue) a second
`handleTimeout("c")` changes none of sessions, queue lists or slot keys. -/
theorem handleTimeout_claim_witness :
    (handleTimeout baseEnv 2 "c" none .general
        (handleTimeout baseEnv 2 "c" none .general kvC6w)).sessions =
      (handleTimeout baseEnv 2 "c" none .general kvC6w).sessions ∧
    (handleTimeout baseEnv 2 "c" none .general
        (handleTimeout baseEnv 2 "c" none .general kvC6w)).queueList =
      (handleTimeout baseEnv 2 "c" none .general kvC6w).queueList ∧
    (handleTimeout baseEnv 2 "c" none .general
        (handleTimeout baseEnv 2 "c" none .general kvC6w)).active =
      (handleTimeout baseEnv 2 "c" none .general kvC6w).active ∧
    (handleTimeout baseEnv 2 "c" none .general
        (handleTimeout baseEnv 2 "c" none .general kvC6w)).activeMeta =
      (handleTimeout baseEnv 2 "c" none .general kvC6w).activeMeta :=
  handleTimeout_claim baseEnv baseEnv 1 1 "c" none .general kvC6w rfl

/-- Waiting chat `d` 1st in the general queue with a complete session, so a
release will activate it. -/
def kvC6 : KV :=
  { emptyKV with
    queueList := updG emptyKV.queueList .general ["d"],
    sessions := updStr emptyKV.sessions "d"
      (some { state := .MENU, driverId := some "7", driverName := some "D",
              vehicleType := some "passeio", priorityScore := some (.fin 50),
              queueGroup := some .general, inQueue := true }) }

/-- Environment with one available route for vehicle type `passeio`. -/
def envC6 : Env :=
  { baseEnv with availRoutes := fun _ => [{ atId := "R1", vehicleType := some "carro" }] }

/-- Counterexample for C6: with chat `d` waiting, one `handleTimeout("c")`
activates `d` (active slot = `d`), but a second `handleTimeout("c")` on the
resulting state clears the slot again (active = none), so the double call
does not equal the single call on the active-slot component. -/
theorem handleTimeout_counterexample :
    (handleTimeout envC6 2 "c" none QGroup.general kvC6).active QGroup.general = some "d" ∧
    (handleTimeout envC6 2 "c" none QGroup.general
      (handleTimeout envC6 2 "c" none QGroup.general kvC6)).active QGroup.general = none :=
  ⟨rfl, rfl⟩

lemma parsePriorityScore_bounds (v : JSNum) :
    0 ≤ parsePriorityScore v ∧ parsePriorityScore v ≤ 100 := by
  cases v with
  | nonfinite => norm_num [parsePriorityScore]
  | fin q =>
    show 0 ≤ (if q < 0 then (0 : ℚ) else if q > 100 then 100 else q) ∧
      (if q < 0 then (0 : ℚ) else if q > 100 then 100 else q) ≤ 100
    split_ifs with h1 h2
    · norm_num
    · norm_num
    · exact ⟨by linarith, by linarith⟩

lemma resolveChatPriorityScore_cases (env : Env) (kv : KV) (c : String)
    (st : Option DriverSession) :
    resolveChatPriorityScore env kv c st = 0 ∨
      ∃ v, resolveChatPriorityScore env kv c st = parsePriorityScore v := by
  rcases st with _ | s
  · rcases hs : kv.sessions c with _ | s2
    · left
      simp [resolveChatPriorityScore, hs]
    · rcases hp : s2.priorityScore with _ | n
      · rcases hd : s2.driverId with _ | d
        · left
          simp [resolveChatPriorityScore, hs, hp, hd]
        · rcases hdr : env.drivers d with _ | dr
          · right
            exact ⟨.nonfinite, by simp [resolveChatPriorityScore, hs, hp, hd, hdr]⟩
          · right
            exact ⟨dr.priorityScore, by simp [resolveChatPriorityScore, hs, hp, hd, hdr]⟩
      · right
        exact ⟨n, by simp [resolveChatPriorityScore, hs, hp]⟩
  · rcases hp : s.priorityScore with _ | n
    · rcases hd : s.driverId with _ | d
      · left
        simp [resolveChatPriorityScore, hp, hd]
      · rcases hdr : env.drivers d with _ | dr
        · right
          exact ⟨.nonfinite, by simp [resolveChatPriorityScore, hp, hd, hdr]⟩
        · right
          exact ⟨dr.priorityScore, by simp [resolveChatPriorityScore, hp, hd, hdr]⟩
    · right
      exact ⟨n, by simp [resolveChatPriorityScore, hp]⟩

/-- C10 (amended): `parsePriorityScore` always lands in [0,100] — non-finite
coercions map to 0, negatives to 0, values above 100 to 100 — so
`resolveChatPriorityScore` always returns a score in [0,100]; and it
returns 0 for a session without a `driverId` that also carries no cached
numeric `priorityScore`. -/
theorem parsePriorityScore_claim :
    (∀ v, 0 ≤ parsePriorityScore v ∧ parsePriorityScore v ≤ 100) ∧
    parsePriorityScore .nonfinite = 0 ∧
    (∀ q, q < 0 → parsePriorityScore (.fin q) = 0) ∧
    (∀ q, 100 < q → parsePriorityScore (.fin q) = 100) ∧
    (∀ (env : Env) (kv : KV) (c : String) (st : Option DriverSession),
      0 ≤ resolveChatPriorityScore env kv c st ∧ resolveChatPriorityScore env kv c st ≤ 100) ∧
    (∀ (env : Env) (kv : KV) (c : String) (s : DriverSession), s.driverId = none →
      s.priorityScore = none → resolveChatPriorityScore env kv c (some s) = 0) := by
  refine ⟨parsePriorityScore_bounds, rfl, ?_, ?_, ?_, ?_⟩
  · intro q h
    show (if q < 0 then (0 : ℚ) else if q > 100 then 100 else q) = 0
    rw [if_pos h]
  · intro q h
    show (if q < 0 then (0 : ℚ) else if q > 100 then 100 else q) = 100
    rw [if_neg (by linarith), if_pos h]
  · intro env kv c st
    rcases resolveChatPriorityScore_cases env kv c st with h | ⟨v, h⟩
    · rw [h]
      norm_num
    · rw [h]
      exact parsePriorityScore_bounds v
  · intro env kv c s hd hp
    simp [resolveChatPriorityScore, hd, hp]

/-- Witness for C10: a negative score parses to 0, and a session with
neither `driverId` nor cached score resolves to 0. -/
theorem parsePriorityScore_claim_witness :
    parsePriorityScore (.fin (-5)) = 0 ∧
      resolveChatPriorityScore baseEnv emptyKV "w" (some { state := .MENU }) = 0 :=
  ⟨parsePriorityScore_claim.2.2.1 (-5) (by norm_num),
    parsePriorityScore_claim.2.2.2.2.2 baseEnv emptyKV "w" { state := .MENU } rfl rfl⟩

/-- Session holding a cached numeric priority score but no driver id. -/
def sessC10 : DriverSession := { state := .MENU, priorityScore := some (.fin 50) }

/-- Counterexample for C10: a session without a `driverId` but with a cached
numeric `priorityScore` resolves to that score (50), not to 0. -/
theorem resolveChatPriorityScore_counterexample :
    sessC10.driverId = none ∧
      resolveChatPriorityScore baseEnv emptyKV "c" (some sessC10) = 50 ∧ (50 : ℚ) ≠ 0 :=
  ⟨rfl, by norm_num [resolveChatPriorityScore, sessC10, parsePriorityScore], by norm_num⟩

/-- Witness for C9: with two short log lines every `/logdiario` message
stays within 3500 characters. -/
theorem logdiario_chunk_claim_witness :
    (logdiarioMessages [['a'], ['b', 'c']]).all
      (fun m => decide (m.length ≤ 3500)) = true :=
  List.all_eq_true.mpr fun m hm =>
    decide_eq_true (logdiario_chunk_claim [['a'], ['b', 'c']] (by decide) m hm)

/-! ### Observable characterization of `enqueue` (claim C3) -/

lemma buildRanked_eq_map (env : Env) (kv : KV) (l : List (Nat × String)) :
    buildRanked env kv l = l.map fun p =>
      ⟨p.2, p.1, isFiorino ((kv.sessions p.2).bind fun s => s.vehicleType),
        resolveChatPriorityScore env kv p.2 (kv.sessions p.2)⟩ := by
  induction l with
  | nil => rfl
  | cons p rest ih =>
    obtain ⟨p1, p2⟩ := p
    simp only [buildRanked, ih, List.map_cons]

/-- Observable ranking key of a queue member as `enqueue(c, vehicleType)`
resolves it: the candidate `c` is keyed by the `vehicleType` argument and
its own session score, an existing member by its session. -/
def memberKey (env : Env) (kv : KV) (chatId : String) (vehicleType : Option String)
    (id : String) : Bool × ℚ :=
  if id = chatId then
    (isFiorino vehicleType, resolveChatPriorityScore env kv chatId (kv.sessions chatId))
  else
    (isFiorino ((kv.sessions id).bind fun s => s.vehicleType),
      resolveChatPriorityScore env kv id (kv.sessions id))

/-- The claimed total order on `(isFiorino, priorityScore)` keys: Fiorino
members precede non-Fiorino, then a higher score precedes a lower one. -/
def priorityGE (a b : Bool × ℚ) : Prop := toLex (!a.1, -a.2) ≤ toLex (!b.1, -b.2)

lemma enqueue_ite_queueList (env : Env) (chatId : String) (g : QGroup) (s2 : KV) :
    (if (isChatBlocklisted env chatId s2).1 then (isChatBlocklisted env chatId s2).2
      else (isChatBlocklisted env chatId s2).2.delEmptySince g).queueList =
      s2.queueList := by
  rcases hbl : (isChatBlocklisted env chatId s2).1 <;>
    simp [hbl, KV.delEmptySince, (isChatBlocklisted_cacheOnly env chatId s2).2.1]

lemma enqueueBody_spec (env : Env) (chatId : String) (vehicleType : Option String)
    (g : QGroup) (s0 : KV) :
    (enqueueBody env chatId vehicleType g s0).1 =
      (enqueueNextQueue env chatId vehicleType g s0).indexOf chatId + 1 ∧
    (enqueueBody env chatId vehicleType g s0).2.queueList g =
      enqueueNextQueue env chatId vehicleType g s0 := by
  constructor
  · rfl
  · show (if (isChatBlocklisted env chatId
          ((s0.setQueueList g (enqueueNextQueue env chatId vehicleType g s0)).setMember
            chatId)).1 = true then
        (isChatBlocklisted env chatId
          ((s0.setQueueList g (enqueueNextQueue env chatId vehicleType g s0)).setMember
            chatId)).2
      else
        (isChatBlocklisted env chatId
          ((s0.setQueueList g (enqueueNextQueue env chatId vehicleType g s0)).setMember
            chatId)).2.delEmptySince g).queueList g =
      enqueueNextQueue env chatId vehicleType g s0
    rw [congrFun (enqueue_ite_queueList env chatId g
      ((s0.setQueueList g (enqueueNextQueue env chatId vehicleType g s0)).setMember chatId)) g]
    exact updG_apply_self _ _ _

lemma buildRanked_congr (env : Env) {s0 kv : KV} (hs : s0.sessions = kv.sessions)
    (l : List (Nat × String)) : buildRanked env s0 l = buildRanked env kv l := by
  rw [buildRanked_eq_map, buildRanked_eq_map]
  apply List.map_congr_left
  intro p _
  rw [hs, resolveChatPriorityScore_congr env hs]

lemma enqueueNextQueue_congr (env : Env) (chatId : String) (vehicleType : Option String)
    (g : QGroup) {s0 kv : KV} (hs : s0.sessions = kv.sessions)
    (hq : s0.queueList g = kv.queueList g) :
    enqueueNextQueue env chatId vehicleType g s0 =
      enqueueNextQueue env chatId vehicleType g kv := by
  unfold enqueueNextQueue
  dsimp only
  rw [hq, buildRanked_congr env hs, resolveChatPriorityScore_congr env hs, hs]

lemma enqueue_result (env : Env) (chatId : String) (vehicleType : Option String)
    (g : QGroup) (kv : KV) :
    (enqueue env chatId vehicleType g kv).1 =
      (enqueueNextQueue env chatId vehicleType g kv).indexOf chatId + 1 ∧
    (enqueue env chatId vehicleType g kv).2.queueList g =
      enqueueNextQueue env chatId vehicleType g kv := by
  unfold enqueue withQueueLock
  by_cases hlock : kv.queueLock g = true
  · rw [if_pos hlock]
    exact enqueueBody_spec env chatId vehicleType g kv
  · rw [if_neg hlock]
    have h := enqueueBody_spec env chatId vehicleType g (kv.setQueueLock g true)
    have hcongr := @enqueueNextQueue_congr env chatId vehicleType g
      (kv.setQueueLock g true) kv rfl rfl
    constructor
    · show (enqueueBody env chatId vehicleType g (kv.setQueueLock g true)).1 = _
      rw [h.1, hcongr]
    · show ((enqueueBody env chatId vehicleType g
          (kv.setQueueLock g true)).2.setQueueLock g false).queueList g = _
      rw [show ((enqueueBody env chatId vehicleType g
          (kv.setQueueLock g true)).2.setQueueLock g false).queueList =
        (enqueueBody env chatId vehicleType g (kv.setQueueLock g true)).2.queueList from rfl]
      rw [h.2, hcongr]

/-- Ranked entries that `enqueue` sorts: every remaining member with its
position in the filtered list, plus the candidate with index
`Number.MAX_SAFE_INTEGER`. -/
def enqueueEntries (env : Env) (chatId : String) (vehicleType : Option String) (g : QGroup)
    (kv : KV) : List RankedEntry :=
  buildRanked env kv (((kv.queueList g).filter fun id => id ≠ chatId).enum) ++
    [⟨chatId, 9007199254740991, isFiorino vehicleType,
      resolveChatPriorityScore env kv chatId (kv.sessions chatId)⟩]

lemma enqueueNextQueue_eq_entries (env : Env) (chatId : String) (vehicleType : Option String)
    (g : QGroup) (kv : KV) :
    enqueueNextQueue env chatId vehicleType g kv =
      ((enqueueEntries env chatId vehicleType g kv).insertionSort rankLEe).map
        RankedEntry.id := rfl

lemma enqueueEntries_map_id (env : Env) (chatId : String) (vehicleType : Option String)
    (g : QGroup) (kv : KV) :
    (enqueueEntries env chatId vehicleType g kv).map RankedEntry.id =
      ((kv.queueList g).filter fun id => id ≠ chatId) ++ [chatId] := by
  unfold enqueueEntries
  rw [List.map_append, buildRanked_eq_map, List.map_map]
  simp only [List.map_cons, List.map_nil]
  congr 1
  rw [show (RankedEntry.id ∘ fun p : Nat × String =>
      (⟨p.2, p.1, isFiorino ((kv.sessions p.2).bind fun s => s.vehicleType),
        resolveChatPriorityScore env kv p.2 (kv.sessions p.2)⟩ : RankedEntry)) =
    Prod.snd from rfl]
  exact List.enum_map_snd _

lemma enqueueEntries_mem (env : Env) (chatId : String) (vehicleType : Option String)
    (g : QGroup) (kv : KV) {e : RankedEntry}
    (he : e ∈ enqueueEntries env chatId vehicleType g kv) :
    (e.isFiorino, e.score) = memberKey env kv chatId vehicleType e.id ∧
    (e.id = chatId → e.index = 9007199254740991) ∧
    (e.id ≠ chatId →
      e.index < ((kv.queueList g).filter fun id => id ≠ chatId).length ∧
      ((kv.queueList g).filter fun id => id ≠ chatId).get? e.index = some e.id) := by
  unfold enqueueEntries at he
  rcases List.mem_append.mp he with hl | hr
  · rw [buildRanked_eq_map] at hl
    rcases List.mem_map.mp hl with ⟨p, hp, rfl⟩
    have hget : ((kv.queueList g).filter fun id => id ≠ chatId)[p.1]? = some p.2 := by
      have := List.mem_enum_iff_getElem?.mp (by exact hp)
      exact this
    have hlt : p.1 < ((kv.queueList g).filter fun id => id ≠ chatId).length :=
      (List.getElem?_eq_some.mp hget).1
    have hmem : p.2 ∈ (kv.queueList g).filter fun id => id ≠ chatId :=
      List.getElem?_mem hget
    have hne : p.2 ≠ chatId := by
      have := (List.mem_filter.mp hmem).2
      simpa using this
    refine ⟨?_, fun h => absurd h hne, fun _ => ⟨hlt, ?_⟩⟩
    · show (_, _) = memberKey env kv chatId vehicleType p.2
      rw [memberKey, if_neg hne]
    · show ((kv.queueList g).filter fun id => id ≠ chatId).get? p.1 = some p.2
      rw [List.get?_eq_getElem?]
      exact hget
  · rcases List.mem_singleton.mp hr with rfl
    refine ⟨?_, fun _ => rfl, fun h => absurd rfl h⟩
    show (_, _) = memberKey env kv chatId vehicleType chatId
    rw [memberKey, if_pos rfl]

lemma rankLEe_priorityGE {e1 e2 : RankedEntry} (h : rankLEe e1 e2) :
    priorityGE (e1.isFiorino, e1.score) (e2.isFiorino, e2.score) := by
  unfold rankLEe rankKeyE at h
  unfold priorityGE
  rw [Prod.Lex.le_iff] at h ⊢
  rcases h with h | ⟨heq, h2⟩
  · exact Or.inl h
  · refine Or.inr ⟨heq, ?_⟩
    rw [Prod.Lex.le_iff] at h2
    rcases h2 with h2 | ⟨h2eq, _⟩
    · exact le_of_lt h2
    · exact le_of_eq h2eq

lemma rankLEe_index_le {e1 e2 : RankedEntry} (hf : e1.isFiorino = e2.isFiorino)
    (hs : e1.score = e2.score) (h : rankLEe e1 e2) : e1.index ≤ e2.index := by
  unfold rankLEe rankKeyE at h
  rw [Prod.Lex.le_iff] at h
  rcases h with h | ⟨_, h2⟩
  · rw [hf] at h
    exact absurd h (lt_irrefl _)
  · rw [Prod.Lex.le_iff] at h2
    rcases h2 with h2 | ⟨_, h3⟩
    · rw [hs] at h2
      exact absurd h2 (lt_irrefl _)
    · exact h3

/-- The sorted entry list underlying `enqueueNextQueue`. -/
def sortedEntries (env : Env) (chatId : String) (vehicleType : Option String) (g : QGroup)
    (kv : KV) : List RankedEntry :=
  (enqueueEntries env chatId vehicleType g kv).insertionSort rankLEe

lemma enqueueNextQueue_eq_sorted (env : Env) (chatId : String) (vehicleType : Option String)
    (g : QGroup) (kv : KV) :
    enqueueNextQueue env chatId vehicleType g kv =
      (sortedEntries env chatId vehicleType g kv).map RankedEntry.id := rfl

lemma sortedEntries_mem (env : Env) (chatId : String) (vehicleType : Option String)
    (g : QGroup) (kv : KV) {e : RankedEntry}
    (he : e ∈ sortedEntries env chatId vehicleType g kv) :
    e ∈ enqueueEntries env chatId vehicleType g kv :=
  (List.perm_insertionSort rankLEe _).mem_iff.mp he

lemma sortedEntries_pairwise (env : Env) (chatId : String) (vehicleType : Option String)
    (g : QGroup) (kv : KV) :
    List.Pairwise rankLEe (sortedEntries env chatId vehicleType g kv) :=
  List.sorted_insertionSort rankLEe _

lemma sortedEntries_get_mem (env : Env) (chatId : String) (vehicleType : Option String)
    (g : QGroup) (kv : KV) (k : Fin (sortedEntries env chatId vehicleType g kv).length) :
    (sortedEntries env chatId vehicleType g kv).get k ∈
      enqueueEntries env chatId vehicleType g kv :=
  sortedEntries_mem env chatId vehicleType g kv (List.get_mem _ k.1 k.2)

lemma enqueueNextQueue_perm (env : Env) (chatId : String) (vehicleType : Option String)
    (g : QGroup) (kv : KV) :
    List.Perm (enqueueNextQueue env chatId vehicleType g kv)
      (chatId :: (kv.queueList g).filter fun id => id ≠ chatId) := by
  rw [enqueueNextQueue_eq_sorted]
  have h1 : List.Perm
      ((sortedEntries env chatId vehicleType g kv).map RankedEntry.id)
      ((enqueueEntries env chatId vehicleType g kv).map RankedEntry.id) :=
    (List.perm_insertionSort rankLEe _).map _
  rw [enqueueEntries_map_id] at h1
  exact h1.trans (List.perm_append_singleton _ _)

lemma enqueueNextQueue_sorted (env : Env) (chatId : String) (vehicleType : Option String)
    (g : QGroup) (kv : KV) :
    List.Sorted
      (fun x y => priorityGE (memberKey env kv chatId vehicleType x)
        (memberKey env kv chatId vehicleType y))
      (enqueueNextQueue env chatId vehicleType g kv) := by
  rw [enqueueNextQueue_eq_sorted]
  refine List.pairwise_map.mpr ?_
  refine List.Pairwise.imp_of_mem ?_ (sortedEntries_pairwise env chatId vehicleType g kv)
  intro e1 e2 h1 h2 hr
  have k1 := (enqueueEntries_mem env chatId vehicleType g kv
    (sortedEntries_mem env chatId vehicleType g kv h1)).1
  have k2 := (enqueueEntries_mem env chatId vehicleType g kv
    (sortedEntries_mem env chatId vehicleType g kv h2)).1
  rw [← k1, ← k2]
  exact rankLEe_priorityGE hr

lemma get_map_id (S : List RankedEntry) (k : Fin ((S.map RankedEntry.id)).length) :
    (S.map RankedEntry.id).get k =
      RankedEntry.id (S.get (Fin.cast (List.length_map S RankedEntry.id) k)) :=
  List.get_map RankedEntry.id

lemma enqueueNextQueue_cand_last (env : Env) (chatId : String) (vehicleType : Option String)
    (g : QGroup) (kv : KV)
    (hlen : (kv.queueList g).length < 9007199254740991)
    (i j : Fin (enqueueNextQueue env chatId vehicleType g kv).length)
    (hi : (enqueueNextQueue env chatId vehicleType g kv).get i = chatId)
    (hj : (enqueueNextQueue env chatId vehicleType g kv).get j ≠ chatId)
    (hk : memberKey env kv chatId vehicleType
        ((enqueueNextQueue env chatId vehicleType g kv).get j) =
      memberKey env kv chatId vehicleType chatId) :
    (j : Nat) < (i : Nat) := by
  by_contra hcon
  push_neg at hcon
  have hij : (i : Nat) ≠ (j : Nat) := by
    intro h
    exact hj ((congrArg _ (Fin.ext h).symm).trans hi)
  have hlt : (i : Nat) < (j : Nat) := lt_of_le_of_ne hcon hij
  have hlm : (enqueueNextQueue env chatId vehicleType g kv).length =
      (sortedEntries env chatId vehicleType g kv).length := by
    rw [enqueueNextQueue_eq_sorted, List.length_map]
  have hgi : RankedEntry.id ((sortedEntries env chatId vehicleType g kv).get
      (Fin.cast hlm i)) = chatId :=
    (get_map_id (sortedEntries env chatId vehicleType g kv) i).symm.trans hi
  have hgj : RankedEntry.id ((sortedEntries env chatId vehicleType g kv).get
      (Fin.cast hlm j)) = (enqueueNextQueue env chatId vehicleType g kv).get j :=
    (get_map_id (sortedEntries env chatId vehicleType g kv) j).symm
  obtain ⟨ki, kiBig, -⟩ := enqueueEntries_mem env chatId vehicleType g kv
    (sortedEntries_get_mem env chatId vehicleType g kv (Fin.cast hlm i))
  obtain ⟨kj, -, kjSmall⟩ := enqueueEntries_mem env chatId vehicleType g kv
    (sortedEntries_get_mem env chatId vehicleType g kv (Fin.cast hlm j))
  have hpw := List.pairwise_iff_get.mp
    (sortedEntries_pairwise env chatId vehicleType g kv)
    (Fin.cast hlm i) (Fin.cast hlm j) hlt
  have iBig : ((sortedEntries env chatId vehicleType g kv).get (Fin.cast hlm i)).index =
      9007199254740991 := kiBig hgi
  obtain ⟨jlt, -⟩ := kjSmall (by rw [hgj]; exact hj)
  rw [hgi] at ki
  rw [hgj, hk] at kj
  have hkey2 := kj.trans ki.symm
  have hle := rankLEe_index_le (congrArg Prod.fst hkey2).symm
    (congrArg Prod.snd hkey2).symm hpw
  rw [iBig] at hle
  have hfl : ((kv.queueList g).filter fun id => id ≠ chatId).length ≤
      (kv.queueList g).length := List.length_filter_le _ _
  omega

lemma enqueueNextQueue_stable (env : Env) (chatId : String) (vehicleType : Option String)
    (g : QGroup) (kv : KV) (hnd : (kv.queueList g).Nodup)
    (a b : String)
    (ha : a ∈ (kv.queueList g).filter fun id => id ≠ chatId)
    (hb : b ∈ (kv.queueList g).filter fun id => id ≠ chatId)
    (hk : memberKey env kv chatId vehicleType a = memberKey env kv chatId vehicleType b)
    (hidx : ((kv.queueList g).filter fun id => id ≠ chatId).indexOf a ≤
      ((kv.queueList g).filter fun id => id ≠ chatId).indexOf b) :
    (enqueueNextQueue env chatId vehicleType g kv).indexOf a ≤
      (enqueueNextQueue env chatId vehicleType g kv).indexOf b := by
  by_cases hab : a = b
  · exact le_of_eq (by rw [hab])
  by_contra hcon
  push_neg at hcon
  have haN : a ∈ enqueueNextQueue env chatId vehicleType g kv :=
    (enqueueNextQueue_perm env chatId vehicleType g kv).mem_iff.mpr
      (List.mem_cons_of_mem _ ha)
  have hbN : b ∈ enqueueNextQueue env chatId vehicleType g kv :=
    (enqueueNextQueue_perm env chatId vehicleType g kv).mem_iff.mpr
      (List.mem_cons_of_mem _ hb)
  have paN : (enqueueNextQueue env chatId vehicleType g kv).indexOf a <
      (enqueueNextQueue env chatId vehicleType g kv).length :=
    List.indexOf_lt_length.mpr haN
  have pbN : (enqueueNextQueue env chatId vehicleType g kv).indexOf b <
      (enqueueNextQueue env chatId vehicleType g kv).length :=
    List.indexOf_lt_length.mpr hbN
  have hlm : (enqueueNextQueue env chatId vehicleType g kv).length =
      (sortedEntries env chatId vehicleType g kv).length := by
    rw [enqueueNextQueue_eq_sorted, List.length_map]
  have getA : (enqueueNextQueue env chatId vehicleType g kv).get ⟨_, paN⟩ = a :=
    List.indexOf_get paN
  have getB : (enqueueNextQueue env chatId vehicleType g kv).get ⟨_, pbN⟩ = b :=
    List.indexOf_get pbN
  have hga : RankedEntry.id ((sortedEntries env chatId vehicleType g kv).get
      (Fin.cast hlm ⟨_, paN⟩)) = a :=
    (get_map_id (sortedEntries env chatId vehicleType g kv) ⟨_, paN⟩).symm.trans getA
  have hgb : RankedEntry.id ((sortedEntries env chatId vehicleType g kv).get
      (Fin.cast hlm ⟨_, pbN⟩)) = b :=
    (get_map_id (sortedEntries env chatId vehicleType g kv) ⟨_, pbN⟩).symm.trans getB
  have haC : a ≠ chatId := by simpa using (List.mem_filter.mp ha).2
  have hbC : b ≠ chatId := by simpa using (List.mem_filter.mp hb).2
  obtain ⟨kA, -, sA⟩ := enqueueEntries_mem env chatId vehicleType g kv
    (sortedEntries_get_mem env chatId vehicleType g kv (Fin.cast hlm ⟨_, paN⟩))
  obtain ⟨kB, -, sB⟩ := enqueueEntries_mem env chatId vehicleType g kv
    (sortedEntries_get_mem env chatId vehicleType g kv (Fin.cast hlm ⟨_, pbN⟩))
  obtain ⟨ltA, gA⟩ := sA (by rw [hga]; exact haC)
  obtain ⟨ltB, gB⟩ := sB (by rw [hgb]; exact hbC)
  have hpw := List.pairwise_iff_get.mp
    (sortedEntries_pairwise env chatId vehicleType g kv)
    (Fin.cast hlm ⟨_, pbN⟩) (Fin.cast hlm ⟨_, paN⟩) hcon
  have hndF : ((kv.queueList g).filter fun id => id ≠ chatId).Nodup := hnd.filter _
  rw [hga] at gA kA
  rw [hgb] at gB kB
  obtain ⟨ltA2, geA⟩ := List.get?_eq_some.mp gA
  obtain ⟨ltB2, geB⟩ := List.get?_eq_some.mp gB
  have pa : ((kv.queueList g).filter fun id => id ≠ chatId).indexOf a <
      ((kv.queueList g).filter fun id => id ≠ chatId).length :=
    List.indexOf_lt_length.mpr ha
  have pb : ((kv.queueList g).filter fun id => id ≠ chatId).indexOf b <
      ((kv.queueList g).filter fun id => id ≠ chatId).length :=
    List.indexOf_lt_length.mpr hb
  have eqA := Fin.mk_eq_mk.mp ((List.Nodup.get_inj_iff hndF).mp
    (geA.trans (List.indexOf_get pa).symm))
  have eqB := Fin.mk_eq_mk.mp ((List.Nodup.get_inj_iff hndF).mp
    (geB.trans (List.indexOf_get pb).symm))
  have hkey2 := kB.trans (hk.symm.trans kA.symm)
  have hle := rankLEe_index_le (congrArg Prod.fst hkey2) (congrArg Prod.snd hkey2) hpw
  rw [eqA, eqB] at hle
  have hEq := le_antisymm hidx hle
  exact hab ((List.indexOf_inj ha hb).mp hEq)

/-- C3: `enqueue(chatId, vehicleType, group)` rewrites the group's waiting
list as a permutation of the candidate plus the previous members with any
old occurrence of the candidate removed, sorted by the stable total order —
Fiorino-type members before non-Fiorino, then higher priorityScore first,
then earlier original index —, and returns the candidate's 1-based position
in the rewritten list. The candidate ends up strictly after every member
whose (isFiorino, priorityScore) key ties with its own, and equally-keyed
existing members keep their original relative order. Stated under the
JavaScript invariants that the stored list is shorter than
`Number.MAX_SAFE_INTEGER` (the candidate's tie-break index) and — for the
relative-order part — holds no duplicate ids. -/
theorem enqueue_claim (env : Env) (chatId : String) (vehicleType : Option String)
    (g : QGroup) (kv : KV)
    (hlen : (kv.queueList g).length < 9007199254740991) :
    List.Perm ((enqueue env chatId vehicleType g kv).2.queueList g)
      (chatId :: (kv.queueList g).filter fun id => id ≠ chatId) ∧
    List.Sorted
      (fun x y => priorityGE (memberKey env kv chatId vehicleType x)
        (memberKey env kv chatId vehicleType y))
      ((enqueue env chatId vehicleType g kv).2.queueList g) ∧
    chatId ∈ (enqueue env chatId vehicleType g kv).2.queueList g ∧
    (enqueue env chatId vehicleType g kv).1 =
      ((enqueue env chatId vehicleType g kv).2.queueList g).indexOf chatId + 1 ∧
    (∀ i j : Fin ((enqueue env chatId vehicleType g kv).2.queueList g).length,
      ((enqueue env chatId vehicleType g kv).2.queueList g).get i = chatId →
      ((enqueue env chatId vehicleType g kv).2.queueList g).get j ≠ chatId →
      memberKey env kv chatId vehicleType
          (((enqueue env chatId vehicleType g kv).2.queueList g).get j) =
        memberKey env kv chatId vehicleType chatId →
      (j : Nat) < (i : Nat)) ∧
    ((kv.queueList g).Nodup →
      ∀ a b : String,
        a ∈ (kv.queueList g).filter (fun id => id ≠ chatId) →
        b ∈ (kv.queueList g).filter (fun id => id ≠ chatId) →
        memberKey env kv chatId vehicleType a = memberKey env kv chatId vehicleType b →
        ((kv.queueList g).filter fun id => id ≠ chatId).indexOf a ≤
          ((kv.queueList g).filter fun id => id ≠ chatId).indexOf b →
        ((enqueue env chatId vehicleType g kv).2.queueList g).indexOf a ≤
          ((enqueue env chatId vehicleType g kv).2.queueList g).indexOf b) := by
  obtain ⟨h1, h2⟩ := enqueue_result env chatId vehicleType g kv
  rw [h1, h2]
  exact ⟨enqueueNextQueue_perm env chatId vehicleType g kv,
    enqueueNextQueue_sorted env chatId vehicleType g kv,
    (enqueueNextQueue_perm env chatId vehicleType g kv).mem_iff.mpr
      (List.mem_cons_self _ _),
    rfl,
    fun i j hi hj hk =>
      enqueueNextQueue_cand_last env chatId vehicleType g kv hlen i j hi hj hk,
    fun hnd a b ha hb hk hidx =>
      enqueueNextQueue_stable env chatId vehicleType g kv hnd a b ha hb hk hidx⟩

/-- Queue holding the single chat `a`, used to witness C3. -/
def kvC3w : KV :=
  { emptyKV with queueList := updG emptyKV.queueList .general ["a"] }

/-- Witness for C3: enqueuing `b` into the one-member queue `["a"]` rewrites
the general list to a permutation of `b` plus the previous member. -/
theorem enqueue_claim_witness :
    (kvC3w.queueList QGroup.general).length < 9007199254740991 ∧
    List.Perm ((enqueue baseEnv "b" none QGroup.general kvC3w).2.queueList QGroup.general)
      ("b" :: (kvC3w.queueList QGroup.general).filter fun id => id ≠ "b") :=
  ⟨by decide, (enqueue_claim baseEnv "b" none QGroup.general kvC3w (by decide)).1⟩
